import Mathlib

/-!
Verification of the LLM_Optimizer repository core components against its
natural-language specification.

Shallow embedding conventions:
* Python `float` constants and arithmetic are modelled over `ℚ` (the values
  involved are small decimal literals; overflow/precision do not decide any of
  the statements below, see comments at the individual definitions).
* Python `datetime` timestamps are modelled as rational "seconds" values that
  are passed explicitly to the functions that read the clock.
* The external embedding provider is modelled as an explicit function
  argument `embed : String → List ℚ`.
* Python `dict` objects keyed by insertion order are modelled as association
  lists (`List (String × β)`) with in-place update and end insertion.

Sources embedded (paths relative to the repository root):
* `dynamic_cache/config.py`, `dynamic_cache/models.py`,
  `dynamic_cache/cache_policy.py`, `dynamic_cache/cache_manager.py`,
  `dynamic_cache/optimizer.py`
* `batching-model wise 1/policy.py`, `batching-model wise 1/batcher.py`,
  `batching-model wise 1/model_catalog.py`,
  `batching-model wise 1/catalog_selector.py`
-/

namespace LLMOpt

/-! ## dynamic_cache/config.py — class Config (default values) -/

namespace Config

/-- `Config.MAX_CACHE_SIZE` (env default `"25"`). -/
def MAX_CACHE_SIZE : ℕ := 25

/-- `Config.THRESHOLD_SHORT_QUERY = 0.92`. -/
def THRESHOLD_SHORT_QUERY : ℚ := 92/100

/-- `Config.THRESHOLD_MEDIUM_QUERY = 0.88`. -/
def THRESHOLD_MEDIUM_QUERY : ℚ := 88/100

/-- `Config.THRESHOLD_LONG_QUERY = 0.84`. -/
def THRESHOLD_LONG_QUERY : ℚ := 84/100

/-- `Config.SHORT_QUERY_MAX_LENGTH = 50`. -/
def SHORT_QUERY_MAX_LENGTH : ℕ := 50

/-- `Config.MEDIUM_QUERY_MAX_LENGTH = 200`. -/
def MEDIUM_QUERY_MAX_LENGTH : ℕ := 200

/-- `Config.MIN_TOKENS_TO_CACHE = 10`. -/
def MIN_TOKENS_TO_CACHE : ℕ := 10

/-- `Config.MAX_TOKENS_TO_CACHE = 4000`. -/
def MAX_TOKENS_TO_CACHE : ℕ := 4000

/-- `Config.MIN_COST_TO_CACHE = 0.000001`. -/
def MIN_COST_TO_CACHE : ℚ := 1/1000000

/-- `Config.SIMILARITY_COVERAGE_THRESHOLD = 0.98`. -/
def SIMILARITY_COVERAGE_THRESHOLD : ℚ := 98/100

/-- `Config.WEIGHT_FREQUENCY = 0.35`. -/
def WEIGHT_FREQUENCY : ℚ := 35/100

/-- `Config.WEIGHT_RECENCY = 0.20`. -/
def WEIGHT_RECENCY : ℚ := 20/100

/-- `Config.WEIGHT_SIMILARITY = 0.25`. -/
def WEIGHT_SIMILARITY : ℚ := 25/100

/-- `Config.WEIGHT_TOKENS_SAVED = 0.20`. -/
def WEIGHT_TOKENS_SAVED : ℚ := 20/100

/-- `Config.EVICTION_PERCENTAGE = 0.10`. -/
def EVICTION_PERCENTAGE : ℚ := 10/100

/-- `Config.TARGET_HIT_RATE = 0.40`. -/
def TARGET_HIT_RATE : ℚ := 40/100

/-- `Config.THRESHOLD_ADJUSTMENT_STEP = 0.02`. -/
def THRESHOLD_ADJUSTMENT_STEP : ℚ := 2/100

end Config

/-! ## dynamic_cache/models.py — class CacheEntry

Fields not read by any embedded operation are kept for shape fidelity.
Timestamps (`created_at`, `last_access`) are rational seconds. -/

structure CacheEntry where
  query : String
  response : String
  embedding : List ℚ
  hits : ℕ := 0
  avg_similarity : ℚ := 0
  created_at : ℚ := 0
  last_access : ℚ := 0
  llm_tokens_saved : ℕ := 0
  input_tokens : ℕ := 0
  output_tokens : ℕ := 0
  cost : ℚ := 0
  deriving Repr, DecidableEq

/-! ## dynamic_cache/cache_policy.py — class CacheDecisionPolicy

The policy object copies the config constants at construction; we read the
config constants directly. `response_text` is only logged in the source, so
it is kept as an (unused) argument. -/

/-- `CacheDecisionPolicy.should_cache` (cache_policy.py lines 22-65). -/
def should_cache (response_text : String) (tokens_used : ℕ)
    (best_similarity_score : Option ℚ) (estimated_cost : ℚ) : Bool :=
  -- Rule 1: skip very short responses
  if tokens_used < Config.MIN_TOKENS_TO_CACHE then false
  -- Rule 2: skip very long responses
  else if tokens_used > Config.MAX_TOKENS_TO_CACHE then false
  -- Rule 3: skip cheap responses
  else if estimated_cost < Config.MIN_COST_TO_CACHE then false
  -- Rule 4: skip if very similar coverage already exists
  else match best_similarity_score with
    | some s => if s ≥ Config.SIMILARITY_COVERAGE_THRESHOLD then false else true
    | none => true

/-- `CacheDecisionPolicy.calculate_cache_value` (cache_policy.py lines 67-108). -/
def calculate_cache_value (hits : ℕ) (age_seconds : ℚ) (avg_similarity : ℚ)
    (tokens_saved : ℕ) : ℚ :=
  let frequency_score : ℚ := min ((hits : ℚ) / 10) 1
  let recency_score : ℚ := max 0 (1 - age_seconds / 86400)
  let similarity_score : ℚ := avg_similarity
  let tokens_score : ℚ := min ((tokens_saved : ℚ) / 10000) 1
  Config.WEIGHT_FREQUENCY * frequency_score +
    Config.WEIGHT_RECENCY * recency_score +
    Config.WEIGHT_SIMILARITY * similarity_score +
    Config.WEIGHT_TOKENS_SAVED * tokens_score

/-! ## dynamic_cache/cache_manager.py — class SemanticCacheManager

State components relevant to the embedded operations: the ordered entry list
(`cache_entries`) and the mutable threshold table (`current_thresholds`).
The FAISS index always mirrors `cache_entries` (it is rebuilt from them on
eviction and appended in lockstep in `add`), so the embedding carries the
entry list only and `index.ntotal` is `cache_entries.length`. -/

structure Thresholds where
  short : ℚ
  medium : ℚ
  long : ℚ
  deriving Repr, DecidableEq

/-- Initial `current_thresholds` table (cache_manager.py lines 39-43). -/
def initialThresholds : Thresholds :=
  { short := Config.THRESHOLD_SHORT_QUERY
    medium := Config.THRESHOLD_MEDIUM_QUERY
    long := Config.THRESHOLD_LONG_QUERY }

/-- `SemanticCacheManager.get_adaptive_threshold` (cache_manager.py lines 45-62). -/
def get_adaptive_threshold (thresholds : Thresholds) (query : String) : ℚ :=
  let query_length := query.length
  if query_length < Config.SHORT_QUERY_MAX_LENGTH then thresholds.short
  else if query_length < Config.MEDIUM_QUERY_MAX_LENGTH then thresholds.medium
  else thresholds.long

/-- Inner product of two embedding vectors (FAISS `IndexFlatIP` similarity). -/
def innerProduct (v w : List ℚ) : ℚ :=
  (List.zipWith (· * ·) v w).sum

/-- Top-1 FAISS search over the stored embeddings: the (similarity, position)
pair maximising inner product with the query embedding, earliest position on
ties, mirroring `index.search(query_embedding, k=1)` on a non-empty index. -/
def faissTop1 (qe : List ℚ) (entries : List CacheEntry) : ℚ × ℕ :=
  match entries.enum.map (fun p => (innerProduct qe p.2.embedding, p.1)) with
  | [] => (0, 0)
  | s :: rest =>
    rest.foldl (fun best cand => if cand.1 > best.1 then cand else best) s

/-- `SemanticCacheManager.search` (cache_manager.py lines 64-97).

Returns `(entry?, best_similarity, threshold_used)`. The empty-index early
return is taken verbatim from line 74; the embedding provider is the explicit
`embed` argument and is used only after that branch. -/
def search (embed : String → List ℚ) (thresholds : Thresholds)
    (entries : List CacheEntry) (query : String) :
    Option CacheEntry × ℚ × ℚ :=
  if entries.length = 0 then
    (none, 0, get_adaptive_threshold thresholds query)
  else
    let query_embedding := embed query
    let best := faissTop1 query_embedding entries
    let best_similarity := best.1
    let best_index := best.2
    let threshold := get_adaptive_threshold thresholds query
    if best_similarity ≥ threshold then
      (entries.get? best_index, best_similarity, threshold)
    else
      (none, best_similarity, threshold)

/-- The `(idx, value, entry)` triples built by `_evict_entries`
(cache_manager.py lines 198-209), with `now` the sampled clock. -/
def entryValues (now : ℚ) (entries : List CacheEntry) :
    List (ℕ × ℚ × CacheEntry) :=
  entries.enum.map (fun p =>
    (p.1, calculate_cache_value p.2.hits (now - p.2.created_at)
        p.2.avg_similarity p.2.llm_tokens_saved, p.2))

/-- Comparator for `entry_values.sort(key=lambda x: x[1])`: Python `list.sort`
is stable and compares only the value component. -/
def valueLe (a b : ℕ × ℚ × CacheEntry) : Bool :=
  decide (a.2.1 ≤ b.2.1)

/-- `num_to_evict = max(1, int(len(self.cache_entries) * config.EVICTION_PERCENTAGE))`
(cache_manager.py line 193); Python `int()` truncates toward zero and the
operand is nonnegative, hence the floor. -/
def num_to_evict (n : ℕ) : ℕ :=
  max 1 (Int.toNat ⌊(n : ℚ) * Config.EVICTION_PERCENTAGE⌋)

/-- The sorted triple list of `_evict_entries` (line 212). -/
def sortedValues (now : ℚ) (entries : List CacheEntry) :
    List (ℕ × ℚ × CacheEntry) :=
  (entryValues now entries).mergeSort valueLe

/-- `indices_to_evict` of `_evict_entries` (line 215). -/
def indices_to_evict (now : ℚ) (entries : List CacheEntry) : List ℕ :=
  ((sortedValues now entries).take (num_to_evict entries.length)).map (·.1)

/-- `SemanticCacheManager._evict_entries` (cache_manager.py lines 188-253),
restricted to its effect on `cache_entries`: the source deletes the chosen
positions in descending order, which keeps exactly the entries whose position
is not selected, in their original order. (Eviction logging and metric
updates have no bearing on the entry list.) -/
def evict_entries (now : ℚ) (entries : List CacheEntry) : List CacheEntry :=
  ((entryValues now entries).filter
      (fun t => decide (t.1 ∉ indices_to_evict now entries))).map (·.2.2)

/-- The `CacheEntry(...)` constructed by `add` (cache_manager.py lines 143-150);
remaining fields take their model defaults. -/
def mkEntry (embed : String → List ℚ) (now : ℚ) (query response : String)
    (input_tokens output_tokens : ℕ) (cost : ℚ) : CacheEntry :=
  { query := query
    response := response
    embedding := embed query
    input_tokens := input_tokens
    output_tokens := output_tokens
    cost := cost
    created_at := now
    last_access := now }

/-- `SemanticCacheManager.add` (cache_manager.py lines 99-162), returning the
updated entry list and the stored flag. `now` is the sampled clock passed on
to `_evict_entries`. -/
def add (embed : String → List ℚ) (now : ℚ) (query response : String)
    (input_tokens output_tokens : ℕ) (cost : ℚ) (best_similarity : Option ℚ)
    (entries : List CacheEntry) : List CacheEntry × Bool :=
  let total_tokens := input_tokens + output_tokens
  if should_cache response total_tokens best_similarity cost then
    let entries₁ :=
      if entries.length ≥ Config.MAX_CACHE_SIZE then evict_entries now entries
      else entries
    (entries₁ ++ [mkEntry embed now query response input_tokens output_tokens cost],
      true)
  else
    (entries, false)

/-! ## dynamic_cache/optimizer.py — class CacheOptimizer

`optimize` reads `metrics.hit_rate` and rewrites the manager's threshold
table; the embedding maps the observed hit rate and the current table to the
new table. History/recommendation bookkeeping does not touch thresholds. -/

/-- `CacheOptimizer._relax_thresholds` (optimizer.py lines 80-104). -/
def relax_thresholds (t : Thresholds) : Thresholds :=
  { short := max (70/100) (t.short - Config.THRESHOLD_ADJUSTMENT_STEP)
    medium := max (70/100) (t.medium - Config.THRESHOLD_ADJUSTMENT_STEP)
    long := max (70/100) (t.long - Config.THRESHOLD_ADJUSTMENT_STEP) }

/-- `CacheOptimizer._tighten_thresholds` (optimizer.py lines 106-130). -/
def tighten_thresholds (t : Thresholds) : Thresholds :=
  { short := min (98/100) (t.short + Config.THRESHOLD_ADJUSTMENT_STEP)
    medium := min (98/100) (t.medium + Config.THRESHOLD_ADJUSTMENT_STEP)
    long := min (98/100) (t.long + Config.THRESHOLD_ADJUSTMENT_STEP) }

/-- `CacheOptimizer.optimize` (optimizer.py lines 33-78), threshold effect. -/
def optimize (hit_rate : ℚ) (t : Thresholds) : Thresholds :=
  if hit_rate < Config.TARGET_HIT_RATE - 5/100 then relax_thresholds t
  else if hit_rate > Config.TARGET_HIT_RATE + 10/100 then tighten_thresholds t
  else t

/-- All three adaptive thresholds lie in the interval `[0.70, 0.98]`. -/
def thresholdsInRange (t : Thresholds) : Prop :=
  (70/100 ≤ t.short ∧ t.short ≤ 98/100) ∧
    (70/100 ≤ t.medium ∧ t.medium ≤ 98/100) ∧
    (70/100 ≤ t.long ∧ t.long ≤ 98/100)

/-- A client-visible cache operation: `add` (admission) or `search` (lookup).
`search` (cache_manager.py lines 64-97) never writes `cache_entries`. -/
inductive CacheOp where
  | store (now : ℚ) (query response : String)
      (input_tokens output_tokens : ℕ) (cost : ℚ) (best_similarity : Option ℚ)
  | lookup (query : String)

/-- Run a sequence of cache operations over the entry list. `lookup` leaves
the entry list unchanged (`search` only reads state). -/
def runCacheOps (embed : String → List ℚ) :
    List CacheOp → List CacheEntry → List CacheEntry
  | [], entries => entries
  | CacheOp.store now q r itok otok cost bs :: ops, entries =>
      runCacheOps embed ops (add embed now q r itok otok cost bs entries).1
  | CacheOp.lookup _ :: ops, entries => runCacheOps embed ops entries

/-- A concrete entry used to build explicit cache states in witnesses and
counterexamples; all trackable fields at their model defaults. -/
def sampleEntry : CacheEntry :=
  { query := "x", response := "y", embedding := [] }

/-! ## batching-model wise 1/model_catalog.py

Catalog entries are the dictionaries of `MODEL_CATALOG`; `strength` is an
association list since `catalog_selector._strength` must cope with missing
keys. Fractional strengths (`2.5`, `2.8`, ...) are exact decimals. -/

structure ModelInfo where
  name : String
  provider : String
  family : String
  cost_tier : String
  latency_tier : String
  context : ℕ
  strength : List (String × ℚ)
  deriving Repr, DecidableEq

def MODEL_CATALOG : List ModelInfo :=
  [ { name := "gpt-3.5-turbo", provider := "openai", family := "chat",
      cost_tier := "very-low", latency_tier := "low", context := 16000,
      strength := [("coding", 2), ("reasoning", 2), ("summarization", 3), ("general", 3)] },
    { name := "gpt-4o-mini", provider := "openai", family := "chat",
      cost_tier := "low", latency_tier := "low", context := 131072,
      strength := [("coding", 3), ("reasoning", 3), ("summarization", 3), ("general", 3)] },
    { name := "gpt-4o", provider := "openai", family := "chat",
      cost_tier := "medium", latency_tier := "medium", context := 131072,
      strength := [("coding", 4), ("reasoning", 4), ("summarization", 4), ("general", 4)] },
    { name := "gpt-4.1", provider := "openai", family := "chat",
      cost_tier := "medium-high", latency_tier := "medium", context := 200000,
      strength := [("coding", 5), ("reasoning", 5), ("summarization", 4), ("general", 5)] },
    { name := "claude-3-haiku", provider := "anthropic", family := "chat",
      cost_tier := "low", latency_tier := "low", context := 200000,
      strength := [("coding", 3), ("reasoning", 2), ("summarization", 3), ("general", 3)] },
    { name := "claude-3.5-sonnet", provider := "anthropic", family := "chat",
      cost_tier := "medium", latency_tier := "medium", context := 200000,
      strength := [("coding", 4), ("reasoning", 4), ("summarization", 4), ("general", 4)] },
    { name := "claude-3-opus", provider := "anthropic", family := "chat",
      cost_tier := "high", latency_tier := "medium", context := 200000,
      strength := [("coding", 5), ("reasoning", 5), ("summarization", 5), ("general", 5)] },
    { name := "models/gemini-1.5-flash", provider := "google", family := "chat",
      cost_tier := "low", latency_tier := "low", context := 1000000,
      strength := [("coding", 3), ("reasoning", 3), ("summarization", 3), ("general", 3)] },
    { name := "models/gemini-1.5-pro", provider := "google", family := "chat",
      cost_tier := "medium", latency_tier := "medium", context := 1000000,
      strength := [("coding", 4), ("reasoning", 4), ("summarization", 4), ("general", 4)] },
    { name := "models/gemini-2.5-flash", provider := "google", family := "chat",
      cost_tier := "low", latency_tier := "low", context := 1000000,
      strength := [("coding", 3), ("reasoning", 3), ("summarization", 3), ("general", 3)] },
    { name := "models/gemini-2.5-pro", provider := "google", family := "chat",
      cost_tier := "medium-high", latency_tier := "medium", context := 2000000,
      strength := [("coding", 4), ("reasoning", 5), ("summarization", 4), ("general", 4)] },
    { name := "deepseek-chat", provider := "deepseek", family := "chat",
      cost_tier := "very-low", latency_tier := "low", context := 32000,
      strength := [("coding", 5/2), ("reasoning", 3), ("summarization", 5/2), ("general", 5/2)] },
    { name := "deepseek-reasoner", provider := "deepseek", family := "reasoning",
      cost_tier := "medium", latency_tier := "medium", context := 64000,
      strength := [("coding", 7/2), ("reasoning", 9/2), ("summarization", 3), ("general", 7/2)] },
    { name := "grok-2-mini", provider := "xai", family := "chat",
      cost_tier := "low", latency_tier := "low", context := 128000,
      strength := [("coding", 3), ("reasoning", 14/5), ("summarization", 3), ("general", 3)] },
    { name := "grok-2", provider := "xai", family := "chat",
      cost_tier := "medium", latency_tier := "medium", context := 128000,
      strength := [("coding", 19/5), ("reasoning", 19/5), ("summarization", 18/5), ("general", 37/10)] } ]

/-- `get_model_info` via `index_by_name` (model_catalog.py lines 154-160): a
dict comprehension lets a later duplicate name win, hence the reversed scan. -/
def get_model_info (model_name : String) (catalog : List ModelInfo) :
    Option ModelInfo :=
  catalog.reverse.find? (fun m => m.name = model_name)

/-! ## batching-model wise 1/policy.py -/

/-- The analysis dictionary fields read by the batcher and the catalog
selector; an absent key reads as `none` (Python `dict.get`). Values carried
by present keys are arbitrary strings, so unrecognized values are
representable. `compliance_needed` models the truthiness of the stored
value. -/
structure AnalysisJson where
  intent_type : Option String := none
  complexity_level : Option String := none
  latency_tolerance : Option String := none
  expected_output_length : Option String := none
  compliance_needed : Option Bool := none
  deriving Repr, DecidableEq

structure BatchingPolicy where
  max_wait_ms : ℤ
  max_batch_size : ℕ
  max_batch_tokens : ℤ
  deriving Repr, DecidableEq

structure AdaptiveBatchingConfig where
  base_wait_ms : ℤ := 80
  min_wait_ms : ℤ := 40
  max_wait_ms : ℤ := 120
  default_max_batch_size : ℕ := 8
  default_max_batch_tokens : ℤ := 3000
  deriving Repr, DecidableEq

/-- `output_length_factor` (policy.py lines 40-51). -/
def output_length_factor (expected_output_length : Option String) : ℚ :=
  if expected_output_length = some "short" then 2/10
  else if expected_output_length = some "long" then 12/10
  else 6/10

/-- `effective_tokens` (policy.py lines 54-59):
`max(1, int(round(token_count * (1.0 + factor))))`. Python `round` is
half-to-even, but `token_count * (1 + factor)` with the three factors above
has denominator 5 in lowest terms for integral `token_count`, so a tie `.5`
never occurs and rounding to nearest, here `⌊x + 1/2⌋`, coincides. -/
def effective_tokens (token_count : ℤ) (analysis_json : AnalysisJson) : ℤ :=
  let factor := output_length_factor analysis_json.expected_output_length
  let eff := ⌊(token_count : ℚ) * (1 + factor) + 1/2⌋
  max 1 eff

/-- `adaptive_wait_ms` (policy.py lines 62-72). -/
def adaptive_wait_ms (latency_tolerance : Option String)
    (cfg : AdaptiveBatchingConfig) : ℤ :=
  let wait : ℤ :=
    if latency_tolerance = some "low" then 50
    else if latency_tolerance = some "high" then 120
    else cfg.base_wait_ms
  max cfg.min_wait_ms (min cfg.max_wait_ms wait)

/-- `policy_for_model` (policy.py lines 75-123); the sequential cap updates
are threaded in source order. -/
def policy_for_model (model_name : String) (analysis_json : AnalysisJson)
    (cfg : AdaptiveBatchingConfig) : BatchingPolicy :=
  let wait_ms := adaptive_wait_ms analysis_json.latency_tolerance cfg
  let max_size := cfg.default_max_batch_size
  let max_tokens := cfg.default_max_batch_tokens
  match get_model_info model_name MODEL_CATALOG with
  | none =>
    { max_wait_ms := wait_ms, max_batch_size := max_size,
      max_batch_tokens := max_tokens }
  | some info =>
    let step1 :=
      if info.latency_tier = "low" then
        (max max_size 12, max max_tokens 4500, min wait_ms 80)
      else (max_size, max_tokens, wait_ms)
    let step2 :=
      if info.latency_tier = "medium" then
        (min step1.1 8, min step1.2.1 5000)
      else (step1.1, step1.2.1)
    let tokens3 :=
      if info.cost_tier = "very-low" ∨ info.cost_tier = "low" then
        max step2.2 5000
      else step2.2
    let step4 :=
      if info.cost_tier = "high" then (min step2.1 6, min tokens3 3500)
      else (step2.1, tokens3)
    { max_wait_ms := step1.2.2, max_batch_size := step4.1,
      max_batch_tokens := step4.2 }

/-! ## batching-model wise 1/batcher.py -/

structure PromptRequest where
  request_id : String
  created_at_ms : ℤ
  shortened_query : String
  analysis_json : AnalysisJson
  token_count : ℤ
  selected_model : String
  user_id : Option String := none
  deriving Repr, DecidableEq

structure Batch where
  batch_id : String
  model_name : String
  created_at_ms : ℤ
  closed_at_ms : Option ℤ := none
  close_reason : Option String := none
  requests : List PromptRequest := []
  total_effective_tokens : ℤ := 0
  total_input_tokens : ℤ := 0
  deriving Repr, DecidableEq

/-- `Batch.size` property (batcher.py lines 32-34). -/
def Batch.size (b : Batch) : ℕ := b.requests.length

/-- Closing mutates the batch in place (batcher.py); modelled functionally. -/
def closeBatch (b : Batch) (now_ms : ℤ) (reason : String) : Batch :=
  { b with closed_at_ms := some now_ms, close_reason := some reason }

/-- `ModelWiseBatcher` state: `_open` is a Python dict in insertion order,
modelled as an association list; `_next_batch_num` is the id counter. -/
structure BatcherState where
  openBatches : List (String × Batch) := []
  next_batch_num : ℕ := 1
  deriving Repr, DecidableEq

/-- Dict lookup `self._open.get(k)`. -/
def lookupA (k : String) : List (String × Batch) → Option Batch
  | [] => none
  | (k', v) :: rest => if k' = k then some v else lookupA k rest

/-- Dict store `self._open[k] = v`: replaces in place if the key is present,
appends at the end otherwise. -/
def setA (k : String) (v : Batch) : List (String × Batch) → List (String × Batch)
  | [] => [(k, v)]
  | (k', v') :: rest =>
    if k' = k then (k', v) :: rest else (k', v') :: setA k v rest

/-- Dict delete `del self._open[k]` (keys are unique in a dict). -/
def eraseA (k : String) : List (String × Batch) → List (String × Batch)
  | [] => []
  | (k', v') :: rest => if k' = k then rest else (k', v') :: eraseA k rest

/-- `ModelWiseBatcher._new_batch` (batcher.py lines 56-59), with the counter
passed and returned explicitly. -/
def new_batch (num : ℕ) (model_name : String) (created_at_ms : ℤ) : Batch :=
  { batch_id := "batch-" ++ toString num, model_name := model_name,
    created_at_ms := created_at_ms }

/-- `ModelWiseBatcher._policy_for_open_batch` (batcher.py lines 61-68):
policy derived from the batch's first request, config fallback if empty. -/
def policy_for_open_batch (cfg : AdaptiveBatchingConfig) (b : Batch) :
    BatchingPolicy :=
  match b.requests with
  | [] =>
    { max_wait_ms := cfg.base_wait_ms,
      max_batch_size := cfg.default_max_batch_size,
      max_batch_tokens := cfg.default_max_batch_tokens }
  | first :: _ => policy_for_model first.selected_model first.analysis_json cfg

/-- The loop body of `flush_due` (batcher.py lines 70-83) over the dict
items in insertion order: empty batches are skipped, due batches are closed
with reason "time" and removed, others stay in place. -/
def flushDueList (cfg : AdaptiveBatchingConfig) (now_ms : ℤ) :
    List (String × Batch) → List Batch × List (String × Batch)
  | [] => ([], [])
  | (m, b) :: rest =>
    let step := flushDueList cfg now_ms rest
    if b.requests = [] then (step.1, (m, b) :: step.2)
    else
      let pol := policy_for_open_batch cfg b
      if now_ms - b.created_at_ms ≥ pol.max_wait_ms then
        (closeBatch b now_ms "time" :: step.1, step.2)
      else (step.1, (m, b) :: step.2)

/-- `ModelWiseBatcher.flush_due` (batcher.py lines 70-83). -/
def flush_due (cfg : AdaptiveBatchingConfig) (now_ms : ℤ) (st : BatcherState) :
    List Batch × BatcherState :=
  let step := flushDueList cfg now_ms st.openBatches
  (step.1, { st with openBatches := step.2 })

/-- The loop body of `flush_all` (batcher.py lines 85-95): every entry is
deleted; non-empty batches are closed with their prior reason or "force". -/
def flushAllList (now_ms : ℤ) : List (String × Batch) → List Batch
  | [] => []
  | (_, b) :: rest =>
    if b.requests = [] then flushAllList now_ms rest
    else
      closeBatch b now_ms (b.close_reason.getD "force") ::
        flushAllList now_ms rest

/-- `ModelWiseBatcher.flush_all` (batcher.py lines 85-95). -/
def flush_all (now_ms : ℤ) (st : BatcherState) : List Batch × BatcherState :=
  (flushAllList now_ms st.openBatches, { st with openBatches := [] })

/-- The per-model core of `ModelWiseBatcher.add` (batcher.py lines 106-144),
acting on the open batch of `req.selected_model` (after `flush_due` ran):
returns the batches closed by this admission, the surviving open batch for
the model, and the updated id counter. -/
def addCore (cfg : AdaptiveBatchingConfig) (req : PromptRequest) (now_ms : ℤ)
    (ob : Option Batch) (nextNum : ℕ) : List Batch × Option Batch × ℕ :=
  let start : Batch × ℕ :=
    match ob with
    | none => (new_batch nextNum req.selected_model now_ms, nextNum + 1)
    | some b => (b, nextNum)
  let batch := start.1
  let pol := policy_for_model req.selected_model req.analysis_json cfg
  let eff := effective_tokens req.token_count req.analysis_json
  -- `would_exceed_size` / `would_exceed_tokens` of the source, inlined
  let mid : List Batch × Batch × ℕ :=
    if 0 < batch.size ∧
        (batch.size + 1 > pol.max_batch_size ∨
          batch.total_effective_tokens + eff > pol.max_batch_tokens) then
      ([closeBatch batch now_ms
          (if batch.size + 1 > pol.max_batch_size then "size" else "tokens")],
        new_batch start.2 req.selected_model now_ms, start.2 + 1)
    else ([], batch, start.2)
  let appended : Batch :=
    { mid.2.1 with
      requests := mid.2.1.requests ++ [req],
      total_input_tokens := mid.2.1.total_input_tokens + max 0 req.token_count,
      total_effective_tokens := mid.2.1.total_effective_tokens + eff }
  if appended.size ≥ pol.max_batch_size then
    (mid.1 ++ [closeBatch appended now_ms "size"], none, mid.2.2)
  else if appended.total_effective_tokens ≥ pol.max_batch_tokens then
    (mid.1 ++ [closeBatch appended now_ms "tokens"], none, mid.2.2)
  else (mid.1, some appended, mid.2.2)

/-- `ModelWiseBatcher.add` (batcher.py lines 97-144): flush due batches
first, then run the admission core on the model's slot of the open map.
(`now_ms` defaults to `req.created_at_ms` at the call site; it is explicit
here.) -/
def add_request (cfg : AdaptiveBatchingConfig) (req : PromptRequest)
    (now_ms : ℤ) (st : BatcherState) : List Batch × BatcherState :=
  let flushed := flush_due cfg now_ms st
  let core := addCore cfg req now_ms
    (lookupA req.selected_model flushed.2.openBatches)
    flushed.2.next_batch_num
  let openNew :=
    match core.2.1 with
    | some b => setA req.selected_model b flushed.2.openBatches
    | none => eraseA req.selected_model flushed.2.openBatches
  (flushed.1 ++ core.1,
    { openBatches := openNew, next_batch_num := core.2.2 })

/-- A client-visible batcher operation. -/
inductive BatchOp where
  | addReq (req : PromptRequest) (now_ms : ℤ)
  | flushDue (now_ms : ℤ)
  | flushAll (now_ms : ℤ)

/-- Run a sequence of batcher operations, concatenating the closed batches
each call returns, in close order. -/
def runBatcher (cfg : AdaptiveBatchingConfig) :
    List BatchOp → BatcherState → List Batch × BatcherState
  | [], st => ([], st)
  | op :: ops, st =>
    let step :=
      match op with
      | BatchOp.addReq req now_ms => add_request cfg req now_ms st
      | BatchOp.flushDue now_ms => flush_due cfg now_ms st
      | BatchOp.flushAll now_ms => flush_all now_ms st
    let rest := runBatcher cfg ops step.2
    (step.1 ++ rest.1, rest.2)

/-- The requests admitted by a sequence of operations, in arrival order. -/
def addedRequests : List BatchOp → List PromptRequest
  | [] => []
  | BatchOp.addReq req _ :: ops => req :: addedRequests ops
  | BatchOp.flushDue _ :: ops => addedRequests ops
  | BatchOp.flushAll _ :: ops => addedRequests ops

/-- Requests sitting in the open batch of model `m`, if any. -/
def openRequestsFor (m : String) (l : List (String × Batch)) :
    List PromptRequest :=
  match lookupA m l with
  | some b => b.requests
  | none => []

/-- Concatenation, in close order, of the request lists of the closed
batches belonging to model `m`. -/
def closedRequestsFor (m : String) (bs : List Batch) : List PromptRequest :=
  ((bs.filter (fun b => b.model_name = m)).map Batch.requests).flatten

/-- Well-formedness of the open map: distinct keys, and every open batch is
stored under its own model name. -/
def WFOpen (l : List (String × Batch)) : Prop :=
  (l.map Prod.fst).Nodup ∧ ∀ p ∈ l, p.2.model_name = p.1

/-- The fresh batcher state (`ModelWiseBatcher.__init__`). -/
def initialBatcherState : BatcherState := {}

/-- The default config `AdaptiveBatchingConfig()` used when `cfg=None`. -/
def defaultBatchCfg : AdaptiveBatchingConfig := {}

/-- A concrete request used in witnesses and counterexamples. -/
def sampleReq : PromptRequest :=
  { request_id := "r1", created_at_ms := 0, shortened_query := "hi",
    analysis_json := {}, token_count := 5, selected_model := "m1" }

/-- A demanding analysis: high complexity, compliance, low latency; its
required strength 4.8 leaves only two catalog candidates. -/
def demandingAnalysis : AnalysisJson :=
  { intent_type := some "coding", complexity_level := some "high",
    latency_tolerance := some "low", compliance_needed := some true }

/-- An easy coding analysis (low complexity, nothing else set). -/
def easyAnalysis : AnalysisJson :=
  { intent_type := some "coding", complexity_level := some "low" }

/-- A concrete open batch holding `sampleReq`, as `add` would create it at
`t = 0` for model `"m1"`. -/
def sampleBatch : Batch :=
  { batch_id := "batch-1", model_name := "m1", created_at_ms := 0,
    requests := [sampleReq], total_effective_tokens := 8,
    total_input_tokens := 5 }

/-- A concrete batcher state with one open batch for `"m1"`. -/
def sampleState : BatcherState :=
  { openBatches := [("m1", sampleBatch)], next_batch_num := 2 }

/-! ## batching-model wise 1/catalog_selector.py -/

/-- `SelectionConfig` (catalog_selector.py lines 24-45). -/
structure SelectionConfig where
  low_min_strength : ℚ := 11/5
  medium_min_strength : ℚ := 14/5
  high_min_strength : ℚ := 4
  compliance_bonus : ℚ := 3/5
  diversity_top_n : ℕ := 5
  deriving Repr, DecidableEq

/-- `_normalize_intent` (lines 48-55); Python `if not intent_type` is true
for both a missing key and an empty string. -/
def normalize_intent (intent_type : Option String) : String :=
  match intent_type with
  | none => "general"
  | some s =>
    if s = "" then "general"
    else if s = "coding" ∨ s = "reasoning" ∨ s = "summarization" then s
    else if s = "data_analysis" then "reasoning"
    else "general"

/-- `_strength` (lines 58-60): `s.get(intent, s.get("general", 0.0))`. -/
def strengthOf (m : ModelInfo) (intent : String) : ℚ :=
  match m.strength.lookup intent with
  | some v => v
  | none =>
    match m.strength.lookup "general" with
    | some v => v
    | none => 0

/-- `_rank_cost` (lines 63-64): `_COST_RANK.get(str(cost_tier), 2)`. -/
def rank_cost (m : ModelInfo) : ℕ :=
  if m.cost_tier = "very-low" then 0
  else if m.cost_tier = "low" then 1
  else if m.cost_tier = "medium" then 2
  else if m.cost_tier = "medium-high" then 3
  else if m.cost_tier = "high" then 4
  else 2

/-- `_rank_latency` (lines 67-68): `_LATENCY_RANK.get(str(latency_tier), 1)`. -/
def rank_latency (m : ModelInfo) : ℕ :=
  if m.latency_tier = "low" then 0
  else if m.latency_tier = "medium" then 1
  else if m.latency_tier = "high" then 2
  else 1

/-- `_required_strength` (lines 71-76). -/
def required_strength (complexity_level : Option String)
    (cfg : SelectionConfig) : ℚ :=
  if complexity_level = some "high" then cfg.high_min_strength
  else if complexity_level = some "medium" then cfg.medium_min_strength
  else cfg.low_min_strength

/-- `in`-substring test of Python, e.g. `"reasoner" in name`: the pattern's
character list occurs contiguously in the string's character list. -/
def containsSub (s pat : String) : Bool :=
  decide (List.IsInfix pat.toList s.toList)

/-- `_provider_preference_boost` (lines 79-102). -/
def provider_preference_boost (m : ModelInfo) (intent : String)
    (complexity_level : Option String) : ℚ :=
  (if intent = "reasoning" ∧ m.provider = "deepseek" ∧
      containsSub m.name "reasoner" then 2/10 else 0) +
  (if intent = "coding" ∧ m.provider = "deepseek" ∧ containsSub m.name "chat" ∧
      (complexity_level = some "low" ∨ complexity_level = some "medium")
    then 15/100 else 0) +
  (if intent = "summarization" ∧ m.provider = "anthropic" ∧
      containsSub m.name "haiku" then 15/100 else 0) +
  (if intent = "coding" ∧ m.provider = "google" ∧ containsSub m.name "flash" ∧
      ¬complexity_level = some "high" then 1/10 else 0) +
  (if m.provider = "xai" ∧ containsSub m.name "mini" ∧
      (complexity_level = some "low" ∨ complexity_level = some "medium")
    then 8/100 else 0)

/-- The sort key `(cost, lat, -strength, -boost)` built at lines 148-155. -/
def rank_key (m : ModelInfo) (intent : String)
    (complexity_level : Option String) : ℚ × ℚ × ℚ × ℚ :=
  ((rank_cost m : ℚ), (rank_latency m : ℚ), -(strengthOf m intent),
    -(provider_preference_boost m intent complexity_level))

/-- Lexicographic comparison of Python tuples of four floats, as the `≤`
comparator driving the stable `ranked.sort` of line 157. -/
def keyLe (a b : ℚ × ℚ × ℚ × ℚ) : Bool :=
  if a.1 ≠ b.1 then decide (a.1 < b.1)
  else if a.2.1 ≠ b.2.1 then decide (a.2.1 < b.2.1)
  else if a.2.2.1 ≠ b.2.2.1 then decide (a.2.2.1 < b.2.2.1)
  else decide (a.2.2.2 ≤ b.2.2.2)

/-- Comparator for `ranked.sort(key=lambda x: x[0])`. -/
def rankedLe (a b : (ℚ × ℚ × ℚ × ℚ) × ModelInfo) : Bool :=
  keyLe a.1 b.1

/-- Comparator realising the stable descending
`sorted(cat, key=strength, reverse=True)` of line 145. -/
def strengthDescLe (intent : String) (a b : ModelInfo) : Bool :=
  decide (strengthOf b intent ≤ strengthOf a intent)

/-- The requirement computation of `select_model_from_catalog`
(lines 130-136): base by complexity, compliance bonus, low-latency bump. -/
def required_for (analysis_json : AnalysisJson) (cfg : SelectionConfig) : ℚ :=
  let r0 := required_strength analysis_json.complexity_level cfg
  let r1 :=
    if analysis_json.compliance_needed.getD false then r0 + cfg.compliance_bonus
    else r0
  if analysis_json.latency_tolerance = some "low" ∧
      (analysis_json.complexity_level = some "medium" ∨
        analysis_json.complexity_level = some "high") then r1 + 2/10
  else r1

/-- The deterministic tie-break key string
`f"{intent}|{complexity}|{latency_tol}|{int(compliance_needed)}"`
(line 166); Python formats `None` as the string `"None"`. -/
def hashKeyString (intent : String) (complexity latency_tol : Option String)
    (compliance_needed : Bool) : String :=
  intent ++ "|" ++ (match complexity with | some s => s | none => "None") ++
    "|" ++ (match latency_tol with | some s => s | none => "None") ++
    "|" ++ (if compliance_needed then "1" else "0")

/-- `sum(ord(c) for c in key)` (line 167). -/
def sumOrds (s : String) : ℕ :=
  (s.toList.map Char.toNat).sum

/-- The catalog models meeting the required strength (lines 138-141). -/
def selectorCandidates (analysis_json : AnalysisJson) (cfg : SelectionConfig)
    (cat : List ModelInfo) : List ModelInfo :=
  cat.filter (fun m =>
    strengthOf m (normalize_intent analysis_json.intent_type) ≥
      required_for analysis_json cfg)

/-- `select_model_from_catalog` (catalog_selector.py lines 105-194): the
returned model name, `none` exactly where the Python indexing `top[idx]`
would fault (an empty catalog). -/
def select_model_from_catalog (analysis_json : AnalysisJson)
    (cfg : SelectionConfig) (cat : List ModelInfo) : Option String :=
  let intent := normalize_intent analysis_json.intent_type
  let complexity := analysis_json.complexity_level
  let latency_tol := analysis_json.latency_tolerance
  let compliance_needed := analysis_json.compliance_needed.getD false
  let candidates := selectorCandidates analysis_json cfg cat
  let candidates :=
    if candidates = [] then (cat.mergeSort (strengthDescLe intent)).take 5
    else candidates
  let ranked :=
    (candidates.map (fun m => (rank_key m intent complexity, m))).mergeSort
      rankedLe
  let top_n := max 1 cfg.diversity_top_n
  let top := (ranked.take top_n).map (·.2)
  if top.isEmpty then none
  else
    let key := hashKeyString intent complexity latency_tol compliance_needed
    let idx := sumOrds key % top.length
    (top.get? idx).map (·.name)

/-- The router rule exactly as the C8 claim words it, with the tie-break
position taken `mod N` for `N = diversity_top_n` (default 5): filter by the
required strength, rank by the lexicographic key, keep the top N, and pick
position `hash mod N`; `none` when that position does not exist. -/
def claimRouterModN (analysis_json : AnalysisJson) (cfg : SelectionConfig)
    (cat : List ModelInfo) : Option String :=
  let intent := normalize_intent analysis_json.intent_type
  let ranked :=
    ((selectorCandidates analysis_json cfg cat).map
        (fun m => (rank_key m intent analysis_json.complexity_level, m))).mergeSort
      rankedLe
  let top := (ranked.take cfg.diversity_top_n).map (·.2)
  let idx := sumOrds (hashKeyString intent analysis_json.complexity_level
    analysis_json.latency_tolerance (analysis_json.compliance_needed.getD false)) %
    cfg.diversity_top_n
  (top.get? idx).map (·.name)

/-- The C8 claim amended: the tie-break position is taken modulo the number
of retained top candidates `min(N, #candidates)` rather than modulo `N`. -/
def claimRouterModTop (analysis_json : AnalysisJson) (cfg : SelectionConfig)
    (cat : List ModelInfo) : Option String :=
  let intent := normalize_intent analysis_json.intent_type
  let ranked :=
    ((selectorCandidates analysis_json cfg cat).map
        (fun m => (rank_key m intent analysis_json.complexity_level, m))).mergeSort
      rankedLe
  let top := (ranked.take cfg.diversity_top_n).map (·.2)
  let idx := sumOrds (hashKeyString intent analysis_json.complexity_level
    analysis_json.latency_tolerance (analysis_json.compliance_needed.getD false)) %
    top.length
  (top.get? idx).map (·.name)

/-! ### Helper lemmas about the eviction pass -/

lemma length_entryValues (now : ℚ) (entries : List CacheEntry) :
    (entryValues now entries).length = entries.length := by
  simp [entryValues]

lemma entryValues_map_fst (now : ℚ) (entries : List CacheEntry) :
    (entryValues now entries).map (·.1) = List.range entries.length := by
  rw [entryValues, List.map_map]
  exact List.enum_map_fst entries

lemma sortedValues_perm (now : ℚ) (entries : List CacheEntry) :
    (sortedValues now entries).Perm (entryValues now entries) :=
  List.mergeSort_perm _ _

lemma length_sortedValues (now : ℚ) (entries : List CacheEntry) :
    (sortedValues now entries).length = entries.length := by
  rw [(sortedValues_perm now entries).length_eq, length_entryValues]

lemma sortedValues_map_fst_nodup (now : ℚ) (entries : List CacheEntry) :
    ((sortedValues now entries).map (·.1)).Nodup := by
  have h : ((sortedValues now entries).map (·.1)).Perm
      ((entryValues now entries).map (·.1)) :=
    (sortedValues_perm now entries).map _
  rw [h.nodup_iff, entryValues_map_fst]
  exact List.nodup_range _

lemma valueLe_trans : ∀ a b c : ℕ × ℚ × CacheEntry,
    valueLe a b → valueLe b c → valueLe a c := by
  intro a b c hab hbc
  simp only [valueLe, decide_eq_true_eq] at *
  exact le_trans hab hbc

lemma valueLe_total : ∀ a b : ℕ × ℚ × CacheEntry, valueLe a b || valueLe b a := by
  intro a b
  simp only [valueLe, Bool.or_eq_true, decide_eq_true_eq]
  exact le_total _ _

lemma sortedValues_pairwise (now : ℚ) (entries : List CacheEntry) :
    (sortedValues now entries).Pairwise (fun a b => valueLe a b) := by
  exact List.sorted_mergeSort valueLe_trans valueLe_total (entryValues now entries)

lemma num_to_evict_pos (n : ℕ) : 1 ≤ num_to_evict n :=
  le_max_left _ _

lemma num_to_evict_eq (n : ℕ) : num_to_evict n = max 1 (n / 10) := by
  unfold num_to_evict Config.EVICTION_PERCENTAGE
  have h : (n : ℚ) * (10/100) = (n : ℚ) / (10 : ℕ) := by push_cast; ring
  rw [h, Rat.floor_natCast_div_natCast]
  omega

lemma num_to_evict_le (n : ℕ) (h : 1 ≤ n) : num_to_evict n ≤ n := by
  rw [num_to_evict_eq]
  have := Nat.div_le_self n 10
  omega

/-- The entries kept by an eviction pass are, as a multiset, exactly the
entries outside the lowest-value segment of the sorted triple list. -/
lemma evict_entries_perm (now : ℚ) (entries : List CacheEntry) :
    (evict_entries now entries).Perm
      (((sortedValues now entries).drop (num_to_evict entries.length)).map
        (fun t => t.2.2)) := by
  set num := num_to_evict entries.length with hnum
  set srt := sortedValues now entries with hsrt
  have hperm : (entryValues now entries).Perm srt := (sortedValues_perm now entries).symm
  have hfil : ((entryValues now entries).filter
        (fun t => decide (t.1 ∉ indices_to_evict now entries))).Perm
      (srt.filter (fun t => decide (t.1 ∉ indices_to_evict now entries))) :=
    hperm.filter _
  have hidx : indices_to_evict now entries = (srt.take num).map (·.1) := rfl
  have hnodup : ((srt.take num).map (·.1) ++ (srt.drop num).map (·.1)).Nodup := by
    rw [← List.map_append, List.take_append_drop]
    exact sortedValues_map_fst_nodup now entries
  have hdisj : ∀ t ∈ srt.drop num, t.1 ∉ indices_to_evict now entries := by
    intro t ht hmem
    rw [hidx] at hmem
    have ht1 : t.1 ∈ (srt.drop num).map (·.1) := List.mem_map_of_mem _ ht
    exact (List.disjoint_of_nodup_append hnodup) hmem ht1
  have htake : ∀ t ∈ srt.take num, t.1 ∈ indices_to_evict now entries := by
    intro t ht
    rw [hidx]
    exact List.mem_map_of_mem _ ht
  have hsplit : srt.filter (fun t => decide (t.1 ∉ indices_to_evict now entries)) =
      srt.drop num := by
    conv_lhs => rw [← List.take_append_drop num srt]
    rw [List.filter_append]
    have h1 : (srt.take num).filter
        (fun t => decide (t.1 ∉ indices_to_evict now entries)) = [] := by
      rw [List.filter_eq_nil_iff]
      intro t ht
      simp only [decide_eq_true_eq, Decidable.not_not]
      exact htake t ht
    have h2 : (srt.drop num).filter
        (fun t => decide (t.1 ∉ indices_to_evict now entries)) = srt.drop num := by
      rw [List.filter_eq_self]
      intro t ht
      simp only [decide_eq_true_eq]
      exact hdisj t ht
    rw [h1, h2, List.nil_append]
  have : (evict_entries now entries).Perm
      ((srt.filter (fun t => decide (t.1 ∉ indices_to_evict now entries))).map
        (fun t => t.2.2)) := by
    unfold evict_entries
    exact hfil.map _
  rw [hsplit] at this
  exact this

/-- Exact length of the entry list left by one eviction pass. -/
lemma evict_entries_length (now : ℚ) (entries : List CacheEntry) :
    (evict_entries now entries).length =
      entries.length - num_to_evict entries.length := by
  rw [(evict_entries_perm now entries).length_eq, List.length_map,
    List.length_drop, length_sortedValues]

/-- Every triple in the evicted segment has value at most that of every
survivor (the stable sort is ascending in the value component). -/
lemma evict_values_le (now : ℚ) (entries : List CacheEntry) :
    ∀ x ∈ (sortedValues now entries).take (num_to_evict entries.length),
      ∀ y ∈ (sortedValues now entries).drop (num_to_evict entries.length),
        x.2.1 ≤ y.2.1 := by
  intro x hx y hy
  have hp := sortedValues_pairwise now entries
  rw [← List.take_append_drop (num_to_evict entries.length)
    (sortedValues now entries)] at hp
  have h := (List.pairwise_append.mp hp).2.2 x hx y hy
  simpa [valueLe] using h

lemma add_length_le (embed : String → List ℚ) (now : ℚ) (q r : String)
    (itok otok : ℕ) (cost : ℚ) (bs : Option ℚ) (entries : List CacheEntry)
    (h : entries.length ≤ Config.MAX_CACHE_SIZE) :
    (add embed now q r itok otok cost bs entries).1.length ≤
      Config.MAX_CACHE_SIZE := by
  unfold add
  dsimp only
  split_ifs with h1 h2
  · have ha : 1 ≤ entries.length :=
      le_trans (by norm_num [Config.MAX_CACHE_SIZE]) h2
    have hb := evict_entries_length now entries
    have hc := num_to_evict_pos entries.length
    simp only [List.length_append, List.length_cons, List.length_nil]
    omega
  · simp only [List.length_append, List.length_cons, List.length_nil]
    simp only [not_le] at h2
    omega
  · exact h

/-! ### Claim theorems for the semantic cache -/

/-- C1: starting from an empty cache, after any sequence of admissions and
lookups the entry count is at most `MAX_CACHE_SIZE`; moreover, whenever an
admission that stores finds `size ≥ MAX_CACHE_SIZE` it runs an eviction pass
before storing (the new list is the evicted list plus the fresh entry). -/
theorem cache_size_bounded :
    (∀ (embed : String → List ℚ) (ops : List CacheOp),
      (runCacheOps embed ops []).length ≤ Config.MAX_CACHE_SIZE) ∧
    (∀ (embed : String → List ℚ) (now : ℚ) (q r : String)
      (itok otok : ℕ) (cost : ℚ) (bs : Option ℚ) (entries : List CacheEntry),
      Config.MAX_CACHE_SIZE ≤ entries.length →
      (add embed now q r itok otok cost bs entries).2 = true →
      (add embed now q r itok otok cost bs entries).1 =
        evict_entries now entries ++
          [mkEntry embed now q r itok otok cost]) := by
  constructor
  · intro embed ops
    suffices h : ∀ (entries : List CacheEntry),
        entries.length ≤ Config.MAX_CACHE_SIZE →
        (runCacheOps embed ops entries).length ≤ Config.MAX_CACHE_SIZE by
      exact h [] (by simp [Config.MAX_CACHE_SIZE])
    induction ops with
    | nil => intro entries h; simpa [runCacheOps] using h
    | cons op ops ih =>
      intro entries h
      cases op with
      | store now q r itok otok cost bs =>
        exact ih _ (add_length_le embed now q r itok otok cost bs entries h)
      | lookup q => exact ih _ h
  · intro embed now q r itok otok cost bs entries hfull hstored
    by_cases hsc : should_cache r (itok + otok) bs cost = true
    · unfold add
      dsimp only
      rw [if_pos hsc, if_pos hfull]
    · unfold add at hstored
      dsimp only at hstored
      rw [if_neg hsc] at hstored
      exact absurd hstored (by simp)

/-- C1 witness: the second conjunct applied at a concrete full cache. -/
theorem cache_size_bounded_witness :
    (add (fun _ => []) 0 "q" "a reasonably sized cached answer" 5 10 (1/100) none
        (List.replicate 25 { query := "x", response := "y", embedding := [] })).1 =
      evict_entries 0
          (List.replicate 25 { query := "x", response := "y", embedding := [] }) ++
        [mkEntry (fun _ => []) 0 "q" "a reasonably sized cached answer" 5 10 (1/100)] :=
  cache_size_bounded.2 (fun _ => []) 0 "q" "a reasonably sized cached answer"
    5 10 (1/100) none _ (by simp [Config.MAX_CACHE_SIZE])
    (by with_unfolding_all rfl)

/-! ### Helper lemmas about the batcher state -/

lemma lookupA_eq_none_iff (k : String) (l : List (String × Batch)) :
    lookupA k l = none ↔ k ∉ l.map Prod.fst := by
  induction l with
  | nil => simp [lookupA]
  | cons p rest ih =>
    rw [lookupA]
    by_cases h : p.1 = k
    · simp [h]
    · rw [if_neg h, ih]
      simp only [List.map_cons, List.mem_cons]
      constructor
      · intro hk hc
        rcases hc with hc | hc
        · exact h hc.symm
        · exact hk hc
      · intro hk hc
        exact hk (Or.inr hc)

lemma lookupA_setA_self (k : String) (v : Batch) (l : List (String × Batch)) :
    lookupA k (setA k v l) = some v := by
  induction l with
  | nil => simp [setA, lookupA]
  | cons p rest ih =>
    rw [setA]
    by_cases h : p.1 = k
    · rw [if_pos h, lookupA, if_pos h]
    · rw [if_neg h, lookupA, if_neg h]
      exact ih

lemma lookupA_setA_ne (k k' : String) (v : Batch) (l : List (String × Batch))
    (h : k' ≠ k) : lookupA k' (setA k v l) = lookupA k' l := by
  induction l with
  | nil =>
    simp only [setA, lookupA]
    rw [if_neg (fun hc : k = k' => h hc.symm)]
  | cons p rest ih =>
    rw [setA]
    by_cases hp : p.1 = k
    · have hne : ¬p.1 = k' := by
        rw [hp]
        exact fun hc => h hc.symm
      rw [if_pos hp, lookupA, lookupA, if_neg hne, if_neg hne]
    · rw [if_neg hp, lookupA, lookupA]
      by_cases hq : p.1 = k'
      · rw [if_pos hq, if_pos hq]
      · rw [if_neg hq, if_neg hq]
        exact ih

lemma lookupA_eraseA_self (k : String) (l : List (String × Batch))
    (hnd : (l.map Prod.fst).Nodup) : lookupA k (eraseA k l) = none := by
  induction l with
  | nil => simp [eraseA, lookupA]
  | cons p rest ih =>
    simp only [List.map_cons, List.nodup_cons] at hnd
    rw [eraseA]
    by_cases h : p.1 = k
    · rw [if_pos h, lookupA_eq_none_iff]
      rw [h] at hnd
      exact hnd.1
    · rw [if_neg h, lookupA, if_neg h]
      exact ih hnd.2

lemma lookupA_eraseA_ne (k k' : String) (l : List (String × Batch))
    (h : k' ≠ k) : lookupA k' (eraseA k l) = lookupA k' l := by
  induction l with
  | nil => simp [eraseA, lookupA]
  | cons p rest ih =>
    rw [eraseA]
    by_cases hp : p.1 = k
    · rw [if_pos hp, lookupA, if_neg (by rw [hp]; exact fun hc => h hc.symm)]
    · rw [if_neg hp, lookupA, lookupA]
      by_cases hq : p.1 = k'
      · rw [if_pos hq, if_pos hq]
      · rw [if_neg hq, if_neg hq]
        exact ih

lemma eraseA_sublist (k : String) (l : List (String × Batch)) :
    (eraseA k l).Sublist l := by
  induction l with
  | nil => simp [eraseA]
  | cons p rest ih =>
    rw [eraseA]
    by_cases h : p.1 = k
    · rw [if_pos h]
      exact (List.sublist_cons_self p rest)
    · rw [if_neg h]
      exact ih.cons₂ p

lemma WFOpen_of_sublist {l l' : List (String × Batch)} (hs : l'.Sublist l)
    (h : WFOpen l) : WFOpen l' :=
  ⟨(h.1).sublist (hs.map Prod.fst), fun p hp => h.2 p (hs.subset hp)⟩

lemma WFOpen_setA (k : String) (v : Batch) (l : List (String × Batch))
    (h : WFOpen l) (hv : v.model_name = k) : WFOpen (setA k v l) := by
  induction l with
  | nil =>
    refine ⟨by simp [setA], ?_⟩
    intro p hp
    simp only [setA, List.mem_singleton] at hp
    rw [hp]
    exact hv
  | cons q rest ih =>
    obtain ⟨hnd, hmem⟩ := h
    simp only [List.map_cons, List.nodup_cons] at hnd
    have hrest : WFOpen rest := ⟨hnd.2, fun p hp => hmem p (List.mem_cons_of_mem q hp)⟩
    rw [setA]
    by_cases hq : q.1 = k
    · rw [if_pos hq]
      refine ⟨?_, ?_⟩
      · simp only [List.map_cons, List.nodup_cons]
        exact hnd
      · intro p hp
        rcases List.mem_cons.mp hp with hp | hp
        · rw [hp]
          exact hq ▸ hv
        · exact hmem p (List.mem_cons_of_mem q hp)
    · rw [if_neg hq]
      obtain ⟨ih1, ih2⟩ := ih hrest
      refine ⟨?_, ?_⟩
      · simp only [List.map_cons, List.nodup_cons]
        refine ⟨?_, ih1⟩
        intro hc
        have : (setA k v rest).map Prod.fst =
            rest.map Prod.fst ∨ (setA k v rest).map Prod.fst =
              rest.map Prod.fst ++ [k] := by
          clear ih ih1 ih2 hnd hrest hmem hc
          induction rest with
          | nil => right; simp [setA]
          | cons w ws ihw =>
            rw [setA]
            by_cases hw : w.1 = k
            · left; simp [hw]
            · rw [if_neg hw]
              rcases ihw with hcase | hcase
              · left; simp [hcase]
              · right; simp [hcase]
        rcases this with hcase | hcase
        · rw [hcase] at hc
          exact hnd.1 hc
        · rw [hcase] at hc
          rcases List.mem_append.mp hc with hc | hc
          · exact hnd.1 hc
          · exact hq (List.mem_singleton.mp hc)
      · intro p hp
        rcases List.mem_cons.mp hp with hp | hp
        · rw [hp]
          exact hmem q (List.mem_cons_self q rest)
        · exact ih2 p hp

lemma closedRequestsFor_cons (m : String) (c : Batch) (bs : List Batch) :
    closedRequestsFor m (c :: bs) =
      (if c.model_name = m then c.requests else []) ++ closedRequestsFor m bs := by
  by_cases h : c.model_name = m <;>
    simp [closedRequestsFor, List.filter_cons, h]

lemma closedRequestsFor_append (m : String) (bs cs : List Batch) :
    closedRequestsFor m (bs ++ cs) =
      closedRequestsFor m bs ++ closedRequestsFor m cs := by
  simp [closedRequestsFor, List.filter_append]

lemma closedRequestsFor_eq_nil (m : String) (bs : List Batch)
    (h : ∀ c ∈ bs, c.model_name ≠ m) : closedRequestsFor m bs = [] := by
  induction bs with
  | nil => simp [closedRequestsFor]
  | cons c cs ih =>
    rw [closedRequestsFor_cons, if_neg (h c (List.mem_cons_self c cs)),
      List.nil_append]
    exact ih (fun d hd => h d (List.mem_cons_of_mem c hd))

lemma openRequestsFor_cons (m : String) (p : String × Batch)
    (l : List (String × Batch)) :
    openRequestsFor m (p :: l) =
      if p.1 = m then p.2.requests else openRequestsFor m l := by
  rw [openRequestsFor, lookupA]
  by_cases h : p.1 = m
  · rw [if_pos h, if_pos h]
  · rw [if_neg h, if_neg h, openRequestsFor]

lemma openRequestsFor_eq_nil_of_not_mem (m : String) (l : List (String × Batch))
    (h : m ∉ l.map Prod.fst) : openRequestsFor m l = [] := by
  rw [openRequestsFor, (lookupA_eq_none_iff m l).mpr h]

/-- `flush_due`'s loop closes only batches stored in the map. -/
lemma flushDueList_closed_models (cfg : AdaptiveBatchingConfig) (now_ms : ℤ)
    (l : List (String × Batch)) (hwf : ∀ p ∈ l, p.2.model_name = p.1) :
    ∀ c ∈ (flushDueList cfg now_ms l).1, c.model_name ∈ l.map Prod.fst := by
  induction l with
  | nil => simp [flushDueList]
  | cons p rest ih =>
    have hrest : ∀ q ∈ rest, q.2.model_name = q.1 :=
      fun q hq => hwf q (List.mem_cons_of_mem p hq)
    have hih := ih hrest
    intro c hc
    rw [flushDueList] at hc
    by_cases h0 : p.2.requests = []
    · rw [if_pos h0] at hc
      exact List.mem_cons_of_mem _ (hih c hc)
    · rw [if_neg h0] at hc
      by_cases hdue : now_ms - p.2.created_at_ms ≥
          (policy_for_open_batch cfg p.2).max_wait_ms
      · rw [if_pos hdue] at hc
        rcases List.mem_cons.mp hc with hc | hc
        · rw [hc]
          simp only [closeBatch]
          rw [hwf p (List.mem_cons_self p rest)]
          exact List.mem_cons_self _ _
        · exact List.mem_cons_of_mem _ (hih c hc)
      · rw [if_neg hdue] at hc
        exact List.mem_cons_of_mem _ (hih c hc)

lemma flushDueList_remaining_sublist (cfg : AdaptiveBatchingConfig)
    (now_ms : ℤ) (l : List (String × Batch)) :
    (flushDueList cfg now_ms l).2.Sublist l := by
  induction l with
  | nil => simp [flushDueList]
  | cons p rest ih =>
    rw [flushDueList]
    by_cases h0 : p.2.requests = []
    · rw [if_pos h0]
      exact ih.cons₂ p
    · rw [if_neg h0]
      by_cases hdue : now_ms - p.2.created_at_ms ≥
          (policy_for_open_batch cfg p.2).max_wait_ms
      · rw [if_pos hdue]
        exact ih.cons p
      · rw [if_neg hdue]
        exact ih.cons₂ p

/-- Per-model effect of the `flush_due` loop: together, the batches it
closes for model `m` and the surviving open batch of `m` carry exactly the
requests the open batch of `m` held before. -/
lemma flushDueList_model (cfg : AdaptiveBatchingConfig) (now_ms : ℤ)
    (m : String) (l : List (String × Batch)) (hwf : WFOpen l) :
    closedRequestsFor m (flushDueList cfg now_ms l).1 ++
      openRequestsFor m (flushDueList cfg now_ms l).2 =
      openRequestsFor m l := by
  induction l with
  | nil => simp [flushDueList, closedRequestsFor, openRequestsFor, lookupA]
  | cons p rest ih =>
    obtain ⟨hnd, hmem⟩ := hwf
    simp only [List.map_cons, List.nodup_cons] at hnd
    have hwfrest : WFOpen rest :=
      ⟨hnd.2, fun q hq => hmem q (List.mem_cons_of_mem p hq)⟩
    have hihr := ih hwfrest
    rw [flushDueList]
    by_cases h0 : p.2.requests = []
    · rw [if_pos h0, openRequestsFor_cons, openRequestsFor_cons]
      by_cases hm : p.1 = m
      · rw [if_pos hm, if_pos hm]
        have hclosed : closedRequestsFor m (flushDueList cfg now_ms rest).1 = [] := by
          refine closedRequestsFor_eq_nil m _ ?_
          intro c hc
          intro hcm
          have := flushDueList_closed_models cfg now_ms rest
            (fun q hq => hwfrest.2 q hq) c hc
          rw [hcm, ← hm] at this
          exact hnd.1 this
        rw [hclosed, List.nil_append]
      · rw [if_neg hm, if_neg hm]
        exact hihr
    · rw [if_neg h0]
      by_cases hdue : now_ms - p.2.created_at_ms ≥
          (policy_for_open_batch cfg p.2).max_wait_ms
      · rw [if_pos hdue, openRequestsFor_cons, closedRequestsFor_cons]
        have hmodel : (closeBatch p.2 now_ms "time").model_name = p.1 :=
          hmem p (List.mem_cons_self p rest)
        by_cases hm : p.1 = m
        · rw [if_pos hm, if_pos (hm ▸ hmodel)]
          have hclosed : closedRequestsFor m (flushDueList cfg now_ms rest).1 = [] := by
            refine closedRequestsFor_eq_nil m _ ?_
            intro c hc hcm
            have := flushDueList_closed_models cfg now_ms rest
              (fun q hq => hwfrest.2 q hq) c hc
            rw [hcm, ← hm] at this
            exact hnd.1 this
          have hopen : openRequestsFor m (flushDueList cfg now_ms rest).2 = [] := by
            refine openRequestsFor_eq_nil_of_not_mem m _ ?_
            intro hc
            have hsub := (flushDueList_remaining_sublist cfg now_ms rest).map Prod.fst
            rw [← hm] at hc
            exact hnd.1 (hsub.subset hc)
          rw [hclosed, hopen]
          simp [closeBatch]
        · rw [if_neg hm, if_neg (fun hc => hm (hmodel ▸ hc)), List.nil_append]
          exact hihr
      · rw [if_neg hdue, openRequestsFor_cons, openRequestsFor_cons]
        by_cases hm : p.1 = m
        · rw [if_pos hm, if_pos hm]
          have hclosed : closedRequestsFor m (flushDueList cfg now_ms rest).1 = [] := by
            refine closedRequestsFor_eq_nil m _ ?_
            intro c hc hcm
            have := flushDueList_closed_models cfg now_ms rest
              (fun q hq => hwfrest.2 q hq) c hc
            rw [hcm, ← hm] at this
            exact hnd.1 this
          rw [hclosed, List.nil_append]
        · rw [if_neg hm, if_neg hm]
          exact hihr

/-- `flush_all`'s loop closes only batches stored in the map. -/
lemma flushAllList_closed_models (now_ms : ℤ) (l : List (String × Batch))
    (hwf : ∀ p ∈ l, p.2.model_name = p.1) :
    ∀ c ∈ flushAllList now_ms l, c.model_name ∈ l.map Prod.fst := by
  induction l with
  | nil => simp [flushAllList]
  | cons p rest ih =>
    have hrest : ∀ q ∈ rest, q.2.model_name = q.1 :=
      fun q hq => hwf q (List.mem_cons_of_mem p hq)
    have hih := ih hrest
    intro c hc
    rw [flushAllList] at hc
    by_cases h0 : p.2.requests = []
    · rw [if_pos h0] at hc
      exact List.mem_cons_of_mem _ (hih c hc)
    · rw [if_neg h0] at hc
      rcases List.mem_cons.mp hc with hc | hc
      · rw [hc]
        simp only [closeBatch]
        rw [hwf p (List.mem_cons_self p rest)]
        exact List.mem_cons_self _ _
      · exact List.mem_cons_of_mem _ (hih c hc)

/-- `flush_all` closes exactly what was open, model by model. -/
lemma flushAllList_model (now_ms : ℤ) (m : String)
    (l : List (String × Batch)) (hwf : WFOpen l) :
    closedRequestsFor m (flushAllList now_ms l) = openRequestsFor m l := by
  induction l with
  | nil => simp [flushAllList, closedRequestsFor, openRequestsFor, lookupA]
  | cons p rest ih =>
    obtain ⟨hnd, hmem⟩ := hwf
    simp only [List.map_cons, List.nodup_cons] at hnd
    have hwfrest : WFOpen rest :=
      ⟨hnd.2, fun q hq => hmem q (List.mem_cons_of_mem p hq)⟩
    have hihr := ih hwfrest
    have hclosed : p.1 = m →
        closedRequestsFor m (flushAllList now_ms rest) = [] := by
      intro hm
      refine closedRequestsFor_eq_nil m _ ?_
      intro c hc hcm
      have := flushAllList_closed_models now_ms rest
        (fun q hq => hwfrest.2 q hq) c hc
      rw [hcm, ← hm] at this
      exact hnd.1 this
    rw [flushAllList, openRequestsFor_cons]
    by_cases h0 : p.2.requests = []
    · by_cases hm : p.1 = m
      · rw [if_pos h0, if_pos hm, hclosed hm, h0]
      · rw [if_pos h0, if_neg hm]
        exact hihr
    · rw [if_neg h0, closedRequestsFor_cons]
      have hmodel : (closeBatch p.2 now_ms (p.2.close_reason.getD "force")).model_name
          = p.1 := hmem p (List.mem_cons_self p rest)
      by_cases hm : p.1 = m
      · rw [if_pos (hm ▸ hmodel), if_pos hm, hclosed hm]
        simp [closeBatch]
      · rw [if_neg (fun hc => hm (hmodel ▸ hc)), if_neg hm, List.nil_append]
        exact hihr

lemma closedRequestsFor_singleton (m : String) (c : Batch) :
    closedRequestsFor m [c] =
      if c.model_name = m then c.requests else [] := by
  rw [closedRequestsFor_cons]
  by_cases h : c.model_name = m <;>
    simp [h, closedRequestsFor]

/-- Per-model effect of the admission core: the closed batches all belong to
the request's model, the surviving open batch (if any) does too, and the
requests across "closed then still-open" are the previous open requests
followed by the new request. -/
lemma addCore_model (cfg : AdaptiveBatchingConfig) (req : PromptRequest)
    (now_ms : ℤ) (ob : Option Batch) (n : ℕ)
    (hob : ∀ b, ob = some b → b.model_name = req.selected_model) :
    (∀ c ∈ (addCore cfg req now_ms ob n).1,
      c.model_name = req.selected_model) ∧
    (∀ b, (addCore cfg req now_ms ob n).2.1 = some b →
      b.model_name = req.selected_model) ∧
    (closedRequestsFor req.selected_model (addCore cfg req now_ms ob n).1 ++
        ((addCore cfg req now_ms ob n).2.1.elim [] Batch.requests) =
      (ob.elim [] Batch.requests) ++ [req]) := by
  cases ob with
  | none =>
    unfold addCore
    dsimp only
    have hno : ¬(0 < (new_batch n req.selected_model now_ms).size ∧
        ((new_batch n req.selected_model now_ms).size + 1 >
            (policy_for_model req.selected_model req.analysis_json cfg).max_batch_size ∨
          (new_batch n req.selected_model now_ms).total_effective_tokens +
              effective_tokens req.token_count req.analysis_json >
            (policy_for_model req.selected_model req.analysis_json cfg).max_batch_tokens)) :=
      fun hcon => absurd hcon.1 (lt_irrefl 0)
    rw [if_neg hno]
    dsimp only
    split_ifs with hs ht
    · refine ⟨fun c hc => ?_, fun b hb => ?_, ?_⟩
      · simp only [List.nil_append, List.mem_singleton] at hc
        subst hc
        rfl
      · simp at hb
      · simp [closedRequestsFor, closeBatch, new_batch, Option.elim]
    · refine ⟨fun c hc => ?_, fun b hb => ?_, ?_⟩
      · simp only [List.nil_append, List.mem_singleton] at hc
        subst hc
        rfl
      · simp at hb
      · simp [closedRequestsFor, closeBatch, new_batch, Option.elim]
    · refine ⟨fun c hc => ?_, fun b hb => ?_, ?_⟩
      · simp at hc
      · simp only [Option.some_inj] at hb
        subst hb
        rfl
      · simp [closedRequestsFor, new_batch, Option.elim]
  | some b0 =>
    have hm0 : b0.model_name = req.selected_model := hob b0 rfl
    unfold addCore
    dsimp only
    by_cases h1 : 0 < b0.size ∧
        (b0.size + 1 >
            (policy_for_model req.selected_model req.analysis_json cfg).max_batch_size ∨
          b0.total_effective_tokens +
              effective_tokens req.token_count req.analysis_json >
            (policy_for_model req.selected_model req.analysis_json cfg).max_batch_tokens)
    · rw [if_pos h1]
      dsimp only
      split_ifs with hr hs ht
      · refine ⟨fun c hc => ?_, fun b hb => ?_, ?_⟩
        · rcases List.mem_append.mp hc with hc | hc <;>
            simp only [List.mem_singleton] at hc <;> subst hc
          · exact hm0
          · rfl
        · simp at hb
        · rw [closedRequestsFor_append, closedRequestsFor_singleton,
            closedRequestsFor_singleton]
          simp [closeBatch, new_batch, hm0, Option.elim]
      · refine ⟨fun c hc => ?_, fun b hb => ?_, ?_⟩
        · rcases List.mem_append.mp hc with hc | hc <;>
            simp only [List.mem_singleton] at hc <;> subst hc
          · exact hm0
          · rfl
        · simp at hb
        · rw [closedRequestsFor_append, closedRequestsFor_singleton,
            closedRequestsFor_singleton]
          simp [closeBatch, new_batch, hm0, Option.elim]
      · refine ⟨fun c hc => ?_, fun b hb => ?_, ?_⟩
        · rcases List.mem_append.mp hc with hc | hc <;>
            simp only [List.mem_singleton] at hc <;> subst hc
          · exact hm0
          · rfl
        · simp at hb
        · rw [closedRequestsFor_append, closedRequestsFor_singleton,
            closedRequestsFor_singleton]
          simp [closeBatch, new_batch, hm0, Option.elim]
      · refine ⟨fun c hc => ?_, fun b hb => ?_, ?_⟩
        · rcases List.mem_append.mp hc with hc | hc <;>
            simp only [List.mem_singleton] at hc <;> subst hc
          · exact hm0
          · rfl
        · simp at hb
        · rw [closedRequestsFor_append, closedRequestsFor_singleton,
            closedRequestsFor_singleton]
          simp [closeBatch, new_batch, hm0, Option.elim]
      · refine ⟨fun c hc => ?_, fun b hb => ?_, ?_⟩
        · simp only [List.mem_singleton] at hc
          subst hc
          exact hm0
        · simp only [Option.some_inj] at hb
          subst hb
          rfl
        · rw [closedRequestsFor_singleton]
          simp [closeBatch, new_batch, hm0, Option.elim]
      · refine ⟨fun c hc => ?_, fun b hb => ?_, ?_⟩
        · simp only [List.mem_singleton] at hc
          subst hc
          exact hm0
        · simp only [Option.some_inj] at hb
          subst hb
          rfl
        · rw [closedRequestsFor_singleton]
          simp [closeBatch, new_batch, hm0, Option.elim]
    · rw [if_neg h1]
      dsimp only
      split_ifs with hs ht
      · refine ⟨fun c hc => ?_, fun b hb => ?_, ?_⟩
        · simp only [List.nil_append, List.mem_singleton] at hc
          subst hc
          exact hm0
        · simp at hb
        · rw [List.nil_append, closedRequestsFor_singleton]
          simp [closeBatch, hm0, Option.elim]
      · refine ⟨fun c hc => ?_, fun b hb => ?_, ?_⟩
        · simp only [List.nil_append, List.mem_singleton] at hc
          subst hc
          exact hm0
        · simp at hb
        · rw [List.nil_append, closedRequestsFor_singleton]
          simp [closeBatch, hm0, Option.elim]
      · refine ⟨fun c hc => ?_, fun b hb => ?_, ?_⟩
        · simp at hc
        · simp only [Option.some_inj] at hb
          subst hb
          exact hm0
        · simp [closedRequestsFor, hm0, Option.elim]


lemma lookupA_mem (k : String) (l : List (String × Batch)) (b : Batch)
    (h : lookupA k l = some b) : (k, b) ∈ l := by
  induction l with
  | nil => simp [lookupA] at h
  | cons p rest ih =>
    rw [lookupA] at h
    by_cases hp : p.1 = k
    · rw [if_pos hp] at h
      simp only [Option.some_inj] at h
      subst h
      rw [← hp]
      exact List.mem_cons_self p rest
    · rw [if_neg hp] at h
      exact List.mem_cons_of_mem p (ih h)

lemma lookupA_model (m : String) (l : List (String × Batch)) (b : Batch)
    (hwf : WFOpen l) (h : lookupA m l = some b) : b.model_name = m :=
  hwf.2 (m, b) (lookupA_mem m l b h)

lemma openRequestsFor_eq_elim (m : String) (l : List (String × Batch)) :
    openRequestsFor m l = (lookupA m l).elim [] Batch.requests := by
  rw [openRequestsFor]
  cases lookupA m l <;> rfl

lemma WFOpen_flushDueList (cfg : AdaptiveBatchingConfig) (now_ms : ℤ)
    (l : List (String × Batch)) (hwf : WFOpen l) :
    WFOpen (flushDueList cfg now_ms l).2 :=
  WFOpen_of_sublist (flushDueList_remaining_sublist cfg now_ms l) hwf

lemma WFOpen_eraseA (k : String) (l : List (String × Batch))
    (hwf : WFOpen l) : WFOpen (eraseA k l) :=
  WFOpen_of_sublist (eraseA_sublist k l) hwf

lemma WFOpen_add_request (cfg : AdaptiveBatchingConfig) (req : PromptRequest)
    (now_ms : ℤ) (st : BatcherState) (hwf : WFOpen st.openBatches) :
    WFOpen (add_request cfg req now_ms st).2.openBatches := by
  unfold add_request
  dsimp only
  have hwf1 : WFOpen (flush_due cfg now_ms st).2.openBatches :=
    WFOpen_flushDueList cfg now_ms st.openBatches hwf
  have hmod := (addCore_model cfg req now_ms
    (lookupA req.selected_model (flush_due cfg now_ms st).2.openBatches)
    (flush_due cfg now_ms st).2.next_batch_num
    (fun b hb => lookupA_model _ _ b hwf1 hb)).2.1
  cases hcore : (addCore cfg req now_ms
      (lookupA req.selected_model (flush_due cfg now_ms st).2.openBatches)
      (flush_due cfg now_ms st).2.next_batch_num).2.1 with
  | none => exact WFOpen_eraseA _ _ hwf1
  | some b => exact WFOpen_setA _ b _ hwf1 (hmod b hcore)

/-- Per-model effect of `add` for the request's own model: the requests in
the batches it closes, followed by the surviving open batch for the model,
extend the previously open requests with the new request. -/
lemma add_request_model_self (cfg : AdaptiveBatchingConfig)
    (req : PromptRequest) (now_ms : ℤ) (st : BatcherState)
    (hwf : WFOpen st.openBatches) :
    closedRequestsFor req.selected_model (add_request cfg req now_ms st).1 ++
        openRequestsFor req.selected_model
          (add_request cfg req now_ms st).2.openBatches =
      openRequestsFor req.selected_model st.openBatches ++ [req] := by
  unfold add_request
  dsimp only
  have hwf1 : WFOpen (flush_due cfg now_ms st).2.openBatches :=
    WFOpen_flushDueList cfg now_ms st.openBatches hwf
  have hcore := addCore_model cfg req now_ms
    (lookupA req.selected_model (flush_due cfg now_ms st).2.openBatches)
    (flush_due cfg now_ms st).2.next_batch_num
    (fun b hb => lookupA_model _ _ b hwf1 hb)
  rw [closedRequestsFor_append]
  have hopen : openRequestsFor req.selected_model
      (match (addCore cfg req now_ms
          (lookupA req.selected_model (flush_due cfg now_ms st).2.openBatches)
          (flush_due cfg now_ms st).2.next_batch_num).2.1 with
        | some b => setA req.selected_model b (flush_due cfg now_ms st).2.openBatches
        | none => eraseA req.selected_model (flush_due cfg now_ms st).2.openBatches) =
      ((addCore cfg req now_ms
          (lookupA req.selected_model (flush_due cfg now_ms st).2.openBatches)
          (flush_due cfg now_ms st).2.next_batch_num).2.1).elim
        [] Batch.requests := by
    cases hc : (addCore cfg req now_ms
        (lookupA req.selected_model (flush_due cfg now_ms st).2.openBatches)
        (flush_due cfg now_ms st).2.next_batch_num).2.1 with
    | none =>
      rw [openRequestsFor,
        lookupA_eraseA_self req.selected_model _ hwf1.1]
      rfl
    | some b =>
      rw [openRequestsFor, lookupA_setA_self]
      rfl
  rw [List.append_assoc, hopen, hcore.2.2]
  rw [← openRequestsFor_eq_elim, ← List.append_assoc]
  have hflush := flushDueList_model cfg now_ms req.selected_model
    st.openBatches hwf
  rw [flush_due] at *
  dsimp only at *
  rw [hflush]

/-- Per-model effect of `add` for every other model: nothing closes and the
open batch is untouched. -/
lemma add_request_model_other (cfg : AdaptiveBatchingConfig)
    (req : PromptRequest) (now_ms : ℤ) (st : BatcherState) (m : String)
    (hm : m ≠ req.selected_model) (hwf : WFOpen st.openBatches) :
    closedRequestsFor m (add_request cfg req now_ms st).1 ++
        openRequestsFor m (add_request cfg req now_ms st).2.openBatches =
      openRequestsFor m st.openBatches := by
  unfold add_request
  dsimp only
  have hwf1 : WFOpen (flush_due cfg now_ms st).2.openBatches :=
    WFOpen_flushDueList cfg now_ms st.openBatches hwf
  have hcore := addCore_model cfg req now_ms
    (lookupA req.selected_model (flush_due cfg now_ms st).2.openBatches)
    (flush_due cfg now_ms st).2.next_batch_num
    (fun b hb => lookupA_model _ _ b hwf1 hb)
  rw [closedRequestsFor_append]
  have hnil : closedRequestsFor m (addCore cfg req now_ms
      (lookupA req.selected_model (flush_due cfg now_ms st).2.openBatches)
      (flush_due cfg now_ms st).2.next_batch_num).1 = [] := by
    refine closedRequestsFor_eq_nil m _ ?_
    intro c hc hcm
    exact hm (hcm.symm.trans (hcore.1 c hc))
  have hopen : openRequestsFor m
      (match (addCore cfg req now_ms
          (lookupA req.selected_model (flush_due cfg now_ms st).2.openBatches)
          (flush_due cfg now_ms st).2.next_batch_num).2.1 with
        | some b => setA req.selected_model b (flush_due cfg now_ms st).2.openBatches
        | none => eraseA req.selected_model (flush_due cfg now_ms st).2.openBatches) =
      openRequestsFor m (flush_due cfg now_ms st).2.openBatches := by
    cases (addCore cfg req now_ms
        (lookupA req.selected_model (flush_due cfg now_ms st).2.openBatches)
        (flush_due cfg now_ms st).2.next_batch_num).2.1 with
    | none =>
      rw [openRequestsFor, openRequestsFor,
        lookupA_eraseA_ne req.selected_model m _ hm]
    | some b =>
      rw [openRequestsFor, openRequestsFor,
        lookupA_setA_ne req.selected_model m b _ hm]
  rw [List.append_assoc, hnil, List.nil_append, hopen]
  have hflush := flushDueList_model cfg now_ms m st.openBatches hwf
  rw [flush_due]
  dsimp only
  exact hflush

/-- The per-model accounting invariant over arbitrary operation sequences:
closed requests for `m`, then the open requests for `m`, equal the formerly
open requests followed by the admitted requests for `m` in arrival order. -/
lemma runBatcher_model (cfg : AdaptiveBatchingConfig) (m : String) :
    ∀ (ops : List BatchOp) (st : BatcherState), WFOpen st.openBatches →
      closedRequestsFor m (runBatcher cfg ops st).1 ++
          openRequestsFor m (runBatcher cfg ops st).2.openBatches =
        openRequestsFor m st.openBatches ++
          (addedRequests ops).filter (fun r => r.selected_model = m) := by
  intro ops
  induction ops with
  | nil =>
    intro st hwf
    simp [runBatcher, addedRequests, closedRequestsFor]
  | cons op ops ih =>
    intro st hwf
    cases op with
    | addReq req now_ms =>
      have hwf2 : WFOpen (add_request cfg req now_ms st).2.openBatches :=
        WFOpen_add_request cfg req now_ms st hwf
      have hih := ih (add_request cfg req now_ms st).2 hwf2
      rw [runBatcher]
      dsimp only
      rw [closedRequestsFor_append, List.append_assoc, hih]
      by_cases hm : req.selected_model = m
      · subst hm
        rw [← List.append_assoc,
          add_request_model_self cfg req now_ms st hwf]
        rw [addedRequests, List.filter_cons, if_pos (by simp)]
        simp
      · rw [← List.append_assoc,
          add_request_model_other cfg req now_ms st m
            (fun hc => hm hc.symm) hwf]
        rw [addedRequests, List.filter_cons,
          if_neg (by simpa using hm)]
    | flushDue now_ms =>
      have hwf2 : WFOpen (flush_due cfg now_ms st).2.openBatches :=
        WFOpen_flushDueList cfg now_ms st.openBatches hwf
      have hih := ih (flush_due cfg now_ms st).2 hwf2
      rw [runBatcher]
      dsimp only
      rw [closedRequestsFor_append, List.append_assoc, hih,
        ← List.append_assoc]
      have hflush := flushDueList_model cfg now_ms m st.openBatches hwf
      rw [flush_due]
      dsimp only
      rw [hflush, addedRequests]
    | flushAll now_ms =>
      have hwf2 : WFOpen (flush_all now_ms st).2.openBatches := by
        rw [flush_all]
        exact ⟨List.nodup_nil, by simp⟩
      have hih := ih (flush_all now_ms st).2 hwf2
      rw [runBatcher]
      dsimp only
      rw [closedRequestsFor_append, List.append_assoc, hih,
        ← List.append_assoc]
      have hflush := flushAllList_model now_ms m st.openBatches hwf
      rw [flush_all]
      dsimp only
      rw [hflush, addedRequests]
      have : openRequestsFor m ([] : List (String × Batch)) = [] := by
        rw [openRequestsFor, lookupA]
      rw [this, List.append_nil]

/-- C2 counterexample: at the default `MAX_CACHE_SIZE = 25`, one eviction
pass removes 2 entries (`max(1, int(25 * 0.10)) = 2`), not the
`⌈0.10 · 25⌉ = 3` the claim asserts. -/
theorem eviction_count_counterexample :
    Config.MAX_CACHE_SIZE ≤ (List.replicate 25 sampleEntry).length ∧
    (evict_entries 0 (List.replicate 25 sampleEntry)).length = 23 ∧
    ⌈Config.EVICTION_PERCENTAGE * ((List.replicate 25 sampleEntry).length : ℚ)⌉ = 3 := by
  refine ⟨by simp [Config.MAX_CACHE_SIZE], by with_unfolding_all rfl, ?_⟩
  have h : Config.EVICTION_PERCENTAGE * ((List.replicate 25 sampleEntry).length : ℚ)
      = 5/2 := by
    simp [Config.EVICTION_PERCENTAGE]
    norm_num
  rw [h, Int.ceil_eq_iff]
  norm_num

/-- C2 (amended): an eviction cycle removes exactly
`max(1, ⌊EVICTION_PERCENTAGE · size⌋)` entries — never more — and the
removed entries are those with the lowest value scores: the kept entries
are precisely (as a multiset) the projection of the sorted triple list
past the evicted lowest-value segment, every evicted value being ≤ every
kept value. -/
theorem eviction_cycle_removes_lowest (now : ℚ) (entries : List CacheEntry)
    (h : Config.MAX_CACHE_SIZE ≤ entries.length) :
    (evict_entries now entries).length =
        entries.length -
          max 1 (Int.toNat ⌊(entries.length : ℚ) * Config.EVICTION_PERCENTAGE⌋) ∧
    (∀ x ∈ (sortedValues now entries).take (num_to_evict entries.length),
      ∀ y ∈ (sortedValues now entries).drop (num_to_evict entries.length),
        x.2.1 ≤ y.2.1) ∧
    (evict_entries now entries).Perm
      (((sortedValues now entries).drop (num_to_evict entries.length)).map
        (fun t => t.2.2)) :=
  ⟨evict_entries_length now entries, evict_values_le now entries,
    evict_entries_perm now entries⟩

/-- C2 witness: the amended count at a concrete full cache of 25 entries. -/
theorem eviction_cycle_removes_lowest_witness :
    (evict_entries 0 (List.replicate 25 sampleEntry)).length =
      (List.replicate 25 sampleEntry).length -
        max 1 (Int.toNat ⌊((List.replicate 25 sampleEntry).length : ℚ) *
          Config.EVICTION_PERCENTAGE⌋) :=
  (eviction_cycle_removes_lowest 0 (List.replicate 25 sampleEntry)
    (by simp [Config.MAX_CACHE_SIZE])).1

lemma should_cache_iff (r : String) (tokens_used : ℕ) (bs : Option ℚ) (cost : ℚ) :
    should_cache r tokens_used bs cost = true ↔
      (Config.MIN_TOKENS_TO_CACHE ≤ tokens_used ∧
        tokens_used ≤ Config.MAX_TOKENS_TO_CACHE ∧
        Config.MIN_COST_TO_CACHE ≤ cost ∧
        ∀ s, bs = some s → s < Config.SIMILARITY_COVERAGE_THRESHOLD) := by
  unfold should_cache
  split_ifs with h1 h2 h3
  · simp only [false_iff]
    intro hc
    omega
  · simp only [false_iff]
    intro hc
    omega
  · simp only [false_iff]
    intro hc
    exact absurd hc.2.2.1 (not_le.mpr h3)
  · cases bs with
    | none =>
      simp only [true_iff]
      refine ⟨by omega, by omega, le_of_not_lt h3, ?_⟩
      intro s hs
      exact absurd hs (by simp)
    | some s =>
      dsimp only
      by_cases hs : s ≥ Config.SIMILARITY_COVERAGE_THRESHOLD
      · rw [if_pos hs]
        simp only [Bool.false_eq_true, false_iff]
        intro hc
        exact absurd (hc.2.2.2 s rfl) (not_lt.mpr hs)
      · rw [if_neg hs]
        simp only [true_iff]
        refine ⟨by omega, by omega, le_of_not_lt h3, ?_⟩
        intro s' hs'
        cases hs'
        exact not_le.mp hs

lemma add_snd_eq (embed : String → List ℚ) (now : ℚ) (q r : String)
    (itok otok : ℕ) (cost : ℚ) (bs : Option ℚ) (entries : List CacheEntry) :
    (add embed now q r itok otok cost bs entries).2 =
      should_cache r (itok + otok) bs cost := by
  unfold add
  dsimp only
  by_cases h : should_cache r (itok + otok) bs cost = true
  · rw [if_pos h]
    exact h.symm
  · rw [if_neg h]
    simp only [Bool.not_eq_true] at h
    exact h.symm

/-- C3: admission stores iff `min_tokens ≤ input+output ≤ max_tokens`,
`cost ≥ min_cost_to_cache`, and any known best similarity is below the
coverage threshold; on any failed condition the entry list is unchanged
and the stored flag is false. -/
theorem admission_policy_characterisation (embed : String → List ℚ) (now : ℚ)
    (q r : String) (itok otok : ℕ) (cost : ℚ) (bs : Option ℚ)
    (entries : List CacheEntry) :
    ((add embed now q r itok otok cost bs entries).2 = true ↔
      (Config.MIN_TOKENS_TO_CACHE ≤ itok + otok ∧
        itok + otok ≤ Config.MAX_TOKENS_TO_CACHE ∧
        Config.MIN_COST_TO_CACHE ≤ cost ∧
        ∀ s, bs = some s → s < Config.SIMILARITY_COVERAGE_THRESHOLD)) ∧
    ((add embed now q r itok otok cost bs entries).2 = false →
      (add embed now q r itok otok cost bs entries).1 = entries) := by
  constructor
  · rw [add_snd_eq]
    exact should_cache_iff r (itok + otok) bs cost
  · intro hfail
    rw [add_snd_eq] at hfail
    unfold add
    dsimp only
    rw [if_neg (by simp [hfail])]

/-- C3 witness: a concrete admission that satisfies every condition stores,
and a concrete admission failing the token minimum leaves the list alone. -/
theorem admission_policy_characterisation_witness :
    (add (fun _ => []) 0 "q" "r" 5 10 (1/100) none []).2 = true ∧
    (add (fun _ => []) 0 "q" "r" 1 2 (1/100) none
      [sampleEntry]).1 = [sampleEntry] := by
  constructor
  · exact (admission_policy_characterisation (fun _ => []) 0 "q" "r" 5 10
      (1/100) none []).1.mpr
      ⟨by norm_num [Config.MIN_TOKENS_TO_CACHE],
        by norm_num [Config.MAX_TOKENS_TO_CACHE],
        by norm_num [Config.MIN_COST_TO_CACHE, Config.MIN_COST_TO_CACHE],
        by intro s hs; cases hs⟩
  · refine (admission_policy_characterisation (fun _ => []) 0 "q" "r" 1 2
      (1/100) none [sampleEntry]).2 ?_
    rw [add_snd_eq]
    unfold should_cache
    rw [if_pos (by norm_num [Config.MIN_TOKENS_TO_CACHE])]

/-- C4: one optimizer run relaxes all three thresholds by 0.02 (floored at
0.70) when the hit rate is below `TARGET_HIT_RATE − 0.05`, tightens them by
0.02 (capped at 0.98) when above `TARGET_HIT_RATE + 0.10`, leaves them
unchanged otherwise, and never moves thresholds that start inside
`[0.70, 0.98]` outside that interval. -/
theorem optimizer_threshold_rule (hr : ℚ) (t : Thresholds)
    (h : thresholdsInRange t) :
    (hr < Config.TARGET_HIT_RATE - 5/100 →
      optimize hr t =
        { short := max (70/100) (t.short - 2/100)
          medium := max (70/100) (t.medium - 2/100)
          long := max (70/100) (t.long - 2/100) }) ∧
    (Config.TARGET_HIT_RATE + 10/100 < hr →
      optimize hr t =
        { short := min (98/100) (t.short + 2/100)
          medium := min (98/100) (t.medium + 2/100)
          long := min (98/100) (t.long + 2/100) }) ∧
    (Config.TARGET_HIT_RATE - 5/100 ≤ hr →
      hr ≤ Config.TARGET_HIT_RATE + 10/100 → optimize hr t = t) ∧
    thresholdsInRange (optimize hr t) := by
  have hstep : Config.THRESHOLD_ADJUSTMENT_STEP = 2/100 := rfl
  obtain ⟨⟨hs1, hs2⟩, ⟨hm1, hm2⟩, ⟨hl1, hl2⟩⟩ := h
  refine ⟨?_, ?_, ?_, ?_⟩
  · intro hlow
    rw [optimize, if_pos hlow]
    simp [relax_thresholds, hstep]
  · intro hhigh
    rw [optimize, if_neg (by linarith [hhigh]), if_pos hhigh]
    simp [tighten_thresholds, hstep]
  · intro hge hle
    rw [optimize, if_neg (not_lt.mpr hge), if_neg (not_lt.mpr hle)]
  · unfold optimize
    split_ifs with h1 h2
    · exact ⟨⟨le_max_left _ _, max_le (by norm_num) (by linarith)⟩,
        ⟨le_max_left _ _, max_le (by norm_num) (by linarith)⟩,
        ⟨le_max_left _ _, max_le (by norm_num) (by linarith)⟩⟩
    · exact ⟨⟨le_min (by norm_num) (by linarith), min_le_left _ _⟩,
        ⟨le_min (by norm_num) (by linarith), min_le_left _ _⟩,
        ⟨le_min (by norm_num) (by linarith), min_le_left _ _⟩⟩
    · exact ⟨⟨hs1, hs2⟩, ⟨hm1, hm2⟩, ⟨hl1, hl2⟩⟩

/-- C4 witness: applied at hit rate 0 from the initial threshold table. -/
theorem optimizer_threshold_rule_witness :
    thresholdsInRange (optimize 0 initialThresholds) :=
  (optimizer_threshold_rule 0 initialThresholds
    (by norm_num [thresholdsInRange, initialThresholds, Config.THRESHOLD_SHORT_QUERY,
      Config.THRESHOLD_MEDIUM_QUERY, Config.THRESHOLD_LONG_QUERY])).2.2.2

/-- C10: a lookup on an empty cache is a miss with no entry, similarity
exactly 0, and the length-bucket threshold, independently of the embedding
provider (which is never invoked on the early-return path). -/
theorem empty_cache_lookup (thresholds : Thresholds) (q : String)
    (embed embedOther : String → List ℚ) :
    search embed thresholds [] q =
        (none, 0, get_adaptive_threshold thresholds q) ∧
    search embed thresholds [] q = search embedOther thresholds [] q := by
  constructor
  · simp [search]
  · simp [search]

lemma flushDueList_lookup (cfg : AdaptiveBatchingConfig) (now_ms : ℤ)
    (m : String) (b : Batch) (l : List (String × Batch)) (hwf : WFOpen l)
    (hb : lookupA m l = some b) (hne : b.requests ≠ []) :
    ((flushDueList cfg now_ms l).1.filter (fun c => c.model_name = m) =
      if now_ms - b.created_at_ms ≥ (policy_for_open_batch cfg b).max_wait_ms
      then [closeBatch b now_ms "time"] else []) ∧
    (lookupA m (flushDueList cfg now_ms l).2 =
      if now_ms - b.created_at_ms ≥ (policy_for_open_batch cfg b).max_wait_ms
      then none else some b) := by
  induction l with
  | nil => simp [lookupA] at hb
  | cons p rest ih =>
    obtain ⟨hnd, hmem⟩ := hwf
    simp only [List.map_cons, List.nodup_cons] at hnd
    have hwfrest : WFOpen rest :=
      ⟨hnd.2, fun q hq => hmem q (List.mem_cons_of_mem p hq)⟩
    rw [lookupA] at hb
    by_cases hp : p.1 = m
    · rw [if_pos hp] at hb
      simp only [Option.some_inj] at hb
      subst hb
      have hrest_models : ∀ c ∈ (flushDueList cfg now_ms rest).1,
          c.model_name ≠ m := by
        intro c hc hcm
        have := flushDueList_closed_models cfg now_ms rest
          (fun q hq => hwfrest.2 q hq) c hc
        rw [hcm, ← hp] at this
        exact hnd.1 this
      have hrest_filter : (flushDueList cfg now_ms rest).1.filter
          (fun c => c.model_name = m) = [] := by
        rw [List.filter_eq_nil_iff]
        intro c hc
        simpa using hrest_models c hc
      have hrest_lookup : lookupA m (flushDueList cfg now_ms rest).2 = none := by
        rw [lookupA_eq_none_iff]
        intro hc
        have hsub := (flushDueList_remaining_sublist cfg now_ms rest).map Prod.fst
        rw [← hp] at hc
        exact hnd.1 (hsub.subset hc)
      rw [flushDueList, if_neg hne]
      by_cases hdue : now_ms - p.2.created_at_ms ≥
          (policy_for_open_batch cfg p.2).max_wait_ms
      · rw [if_pos hdue]
        dsimp only
        constructor
        · rw [if_pos hdue, List.filter_cons,
            if_pos (by simp [closeBatch, hmem p (List.mem_cons_self p rest), hp]),
            hrest_filter]
        · rw [if_pos hdue]
          exact hrest_lookup
      · rw [if_neg hdue]
        dsimp only
        constructor
        · rw [if_neg hdue]
          exact hrest_filter
        · rw [if_neg hdue, lookupA, if_pos hp]
    · rw [if_neg hp] at hb
      have hihr := ih hwfrest hb
      rw [flushDueList]
      by_cases h0 : p.2.requests = []
      · rw [if_pos h0]
        dsimp only
        refine ⟨hihr.1, ?_⟩
        rw [lookupA, if_neg hp]
        exact hihr.2
      · rw [if_neg h0]
        by_cases hdue : now_ms - p.2.created_at_ms ≥
            (policy_for_open_batch cfg p.2).max_wait_ms
        · rw [if_pos hdue]
          dsimp only
          refine ⟨?_, hihr.2⟩
          rw [List.filter_cons,
            if_neg (by
              simp only [closeBatch, decide_eq_true_eq]
              rw [hmem p (List.mem_cons_self p rest)]
              exact hp)]
          exact hihr.1
        · rw [if_neg hdue]
          dsimp only
          refine ⟨hihr.1, ?_⟩
          rw [lookupA, if_neg hp]
          exact hihr.2

/-- C6: `flush_due(now_ms)` closes an open non-empty batch, with close
reason "time", iff `now_ms − created_at_ms ≥ max_wait_ms` for the policy
computed from the batch's first request (`policy_for_open_batch`); otherwise
the batch stays open unchanged. -/
theorem flush_due_time_close (cfg : AdaptiveBatchingConfig)
    (st : BatcherState) (now_ms : ℤ) (m : String) (b : Batch)
    (hwf : WFOpen st.openBatches) (hb : lookupA m st.openBatches = some b)
    (hne : b.requests ≠ []) :
    ((flush_due cfg now_ms st).1.filter (fun c => c.model_name = m) =
      if now_ms - b.created_at_ms ≥ (policy_for_open_batch cfg b).max_wait_ms
      then [closeBatch b now_ms "time"] else []) ∧
    (lookupA m (flush_due cfg now_ms st).2.openBatches =
      if now_ms - b.created_at_ms ≥ (policy_for_open_batch cfg b).max_wait_ms
      then none else some b) :=
  flushDueList_lookup cfg now_ms m b st.openBatches hwf hb hne

/-- C6 witness: a batch opened at t = 0 whose policy waits 80 ms is closed
by `flush_due 80` and not by `flush_due 79`. -/
theorem flush_due_time_close_witness :
    ((flush_due defaultBatchCfg 80 sampleState).1.filter
        (fun c => c.model_name = "m1") = [closeBatch sampleBatch 80 "time"]) ∧
    (lookupA "m1" (flush_due defaultBatchCfg 79 sampleState).2.openBatches =
      some sampleBatch) := by
  constructor
  · have h := (flush_due_time_close defaultBatchCfg sampleState 80 "m1"
      sampleBatch
      ⟨by simp [sampleState], by simp [sampleState, sampleBatch]⟩
      (by with_unfolding_all rfl) (by simp [sampleBatch])).1
    rw [h]
    rw [if_pos (by with_unfolding_all rfl)]
  · have h := (flush_due_time_close defaultBatchCfg sampleState 79 "m1"
      sampleBatch
      ⟨by simp [sampleState], by simp [sampleState, sampleBatch]⟩
      (by with_unfolding_all rfl) (by simp [sampleBatch])).2
    rw [h]
    rw [if_neg (by with_unfolding_all exact fun hc => absurd hc (by decide))]

/-- C7 counterexample: after a single `add` with no flush, the open batch
still holds the request, so the concatenation of the request lists of the
batches closed for the model is empty and differs from the subsequence of
added requests for that model. -/
theorem batcher_closed_concat_counterexample :
    closedRequestsFor "m1"
        (runBatcher defaultBatchCfg [BatchOp.addReq sampleReq 0]
          initialBatcherState).1 = [] ∧
    (addedRequests [BatchOp.addReq sampleReq 0]).filter
        (fun r => r.selected_model = "m1") = [sampleReq] ∧
    ([] : List PromptRequest) ≠ [sampleReq] := by
  refine ⟨by with_unfolding_all rfl, by with_unfolding_all rfl, by simp⟩

/-- C7 (amended): for every operation sequence and model `m`, the
concatenation in close order of the request lists of the batches closed for
`m`, followed by the requests still sitting in `m`'s open batch, equals the
subsequence of added requests with `selected_model = m` in arrival order;
in particular, when no open batch remains for `m` (e.g. after a final
`flush_all`) the closed concatenation alone equals that subsequence. -/
theorem batcher_model_order (cfg : AdaptiveBatchingConfig)
    (ops : List BatchOp) (m : String) :
    (closedRequestsFor m (runBatcher cfg ops initialBatcherState).1 ++
        openRequestsFor m
          (runBatcher cfg ops initialBatcherState).2.openBatches =
      (addedRequests ops).filter (fun r => r.selected_model = m)) ∧
    (openRequestsFor m (runBatcher cfg ops initialBatcherState).2.openBatches
        = [] →
      closedRequestsFor m (runBatcher cfg ops initialBatcherState).1 =
        (addedRequests ops).filter (fun r => r.selected_model = m)) := by
  have h := runBatcher_model cfg m ops initialBatcherState
    ⟨List.nodup_nil, fun p hp => absurd hp (List.not_mem_nil p)⟩
  have hinit : openRequestsFor m initialBatcherState.openBatches = [] := rfl
  rw [hinit, List.nil_append] at h
  refine ⟨h, fun hopen => ?_⟩
  rw [hopen, List.append_nil] at h
  exact h

/-- C7 witness: a concrete run whose final `flush_all` empties the open map,
so the closed concatenation equals the added subsequence. -/
theorem batcher_model_order_witness :
    closedRequestsFor "m1"
        (runBatcher defaultBatchCfg
          [BatchOp.addReq sampleReq 0, BatchOp.flushAll 1]
          initialBatcherState).1 =
      (addedRequests [BatchOp.addReq sampleReq 0, BatchOp.flushAll 1]).filter
        (fun r => r.selected_model = "m1") :=
  (batcher_model_order defaultBatchCfg
      [BatchOp.addReq sampleReq 0, BatchOp.flushAll 1] "m1").2
    (by with_unfolding_all rfl)

/-- Under the default config every per-model batch size cap is positive
(the caps reachable from `default_max_batch_size = 8` are 6, 8 and 12). -/
lemma policy_max_batch_size_pos (model : String) (a : AnalysisJson) :
    0 < (policy_for_model model a defaultBatchCfg).max_batch_size := by
  unfold policy_for_model
  cases get_model_info model MODEL_CATALOG with
  | none => norm_num [defaultBatchCfg]
  | some info =>
    dsimp only
    split_ifs <;> simp_all [defaultBatchCfg] <;> omega

/-- The size and token caps of `policy_for_model` do not depend on the
request's analysis (only the wait time does), so the per-model policy is
fixed across the requests of one model. -/
lemma policy_caps_model_only (model : String) (a a' : AnalysisJson)
    (cfg : AdaptiveBatchingConfig) :
    (policy_for_model model a cfg).max_batch_size =
        (policy_for_model model a' cfg).max_batch_size ∧
      (policy_for_model model a cfg).max_batch_tokens =
        (policy_for_model model a' cfg).max_batch_tokens := by
  unfold policy_for_model
  cases get_model_info model MODEL_CATALOG with
  | none => exact ⟨rfl, rfl⟩
  | some info =>
    dsimp only
    split_ifs <;> exact ⟨rfl, rfl⟩

/-- C5: one `add` under the fixed per-model policy. With the open batch
below the size cap (the invariant `add` itself maintains):
(d) a non-empty open batch that cannot absorb the request's effective
tokens is closed first, with reason "tokens" (the size variant of the
pre-close guard is unreachable below the cap), and the request starts a new
batch; (a) if the batch the request joined reaches exactly
`max_batch_size`, it is closed with reason "size"; (b) otherwise if its
total effective tokens reach `max_batch_tokens` — equality included — it is
closed with reason "tokens"; (c) otherwise it stays open. -/
theorem add_close_reasons (req : PromptRequest) (now_ms : ℤ)
    (ob : Option Batch) (n : ℕ) (pol : BatchingPolicy) (eff : ℤ)
    (b0size : ℕ) (b0toks : ℤ)
    (hpol : pol = policy_for_model req.selected_model req.analysis_json
      defaultBatchCfg)
    (heff : eff = effective_tokens req.token_count req.analysis_json)
    (hsize : b0size = ob.elim 0 Batch.size)
    (htoks : b0toks = ob.elim 0 Batch.total_effective_tokens)
    (hob : ∀ b, ob = some b → b.size < pol.max_batch_size) :
    ((0 < b0size ∧ pol.max_batch_tokens < b0toks + eff) →
      ∀ b, ob = some b →
        (addCore defaultBatchCfg req now_ms ob n).1.head? =
          some (closeBatch b now_ms "tokens")) ∧
    ((b0size = 0 ∨ b0toks + eff ≤ pol.max_batch_tokens) →
      ((b0size + 1 = pol.max_batch_size →
          (addCore defaultBatchCfg req now_ms ob n).2.1 = none ∧
          ∃ c, (addCore defaultBatchCfg req now_ms ob n).1.getLast? = some c ∧
            c.close_reason = some "size" ∧
            c.requests.length = pol.max_batch_size) ∧
        (b0size + 1 ≠ pol.max_batch_size →
          pol.max_batch_tokens ≤ b0toks + eff →
          (addCore defaultBatchCfg req now_ms ob n).2.1 = none ∧
          ∃ c, (addCore defaultBatchCfg req now_ms ob n).1.getLast? = some c ∧
            c.close_reason = some "tokens" ∧
            c.total_effective_tokens = b0toks + eff) ∧
        (b0size + 1 ≠ pol.max_batch_size →
          b0toks + eff < pol.max_batch_tokens →
          ∃ b', (addCore defaultBatchCfg req now_ms ob n).2.1 = some b' ∧
            b'.requests.length = b0size + 1 ∧
            b'.total_effective_tokens = b0toks + eff))) ∧
    ((0 < b0size ∧ pol.max_batch_tokens < b0toks + eff) →
      ((1 = pol.max_batch_size →
          (addCore defaultBatchCfg req now_ms ob n).2.1 = none ∧
          ∃ c, (addCore defaultBatchCfg req now_ms ob n).1.getLast? = some c ∧
            c.close_reason = some "size" ∧ c.requests.length = 1) ∧
        (1 ≠ pol.max_batch_size → pol.max_batch_tokens ≤ eff →
          (addCore defaultBatchCfg req now_ms ob n).2.1 = none ∧
          ∃ c, (addCore defaultBatchCfg req now_ms ob n).1.getLast? = some c ∧
            c.close_reason = some "tokens") ∧
        (1 ≠ pol.max_batch_size → eff < pol.max_batch_tokens →
          ∃ b', (addCore defaultBatchCfg req now_ms ob n).2.1 = some b' ∧
            b'.requests = [req]))) := by
  subst hpol heff hsize htoks
  cases ob with
  | none =>
    have hmaxpos := policy_max_batch_size_pos req.selected_model
      req.analysis_json
    simp only [Option.elim]
    refine ⟨fun hcon => absurd hcon.1 (lt_irrefl 0), fun _ => ?_,
      fun hcon => absurd hcon.1 (lt_irrefl 0)⟩
    unfold addCore
    dsimp only
    have hno : ¬(0 < (new_batch n req.selected_model now_ms).size ∧
        ((new_batch n req.selected_model now_ms).size + 1 >
            (policy_for_model req.selected_model req.analysis_json
              defaultBatchCfg).max_batch_size ∨
          (new_batch n req.selected_model now_ms).total_effective_tokens +
              effective_tokens req.token_count req.analysis_json >
            (policy_for_model req.selected_model req.analysis_json
              defaultBatchCfg).max_batch_tokens)) :=
      fun hcon => absurd hcon.1 (lt_irrefl 0)
    rw [if_neg hno]
    simp only [Batch.size, new_batch, closeBatch, List.nil_append,
      List.length_singleton, List.length_append, zero_add]
    split_ifs with hA hB
    · refine ⟨fun hfill => ⟨rfl, _, by rfl, by rfl,
          by simp <;> omega⟩,
        fun hnofill htok => False.elim (by omega),
        fun hnofill htok => False.elim (by omega)⟩
    · refine ⟨fun hfill => False.elim (by omega),
        fun hnofill htok => ⟨rfl, _, by rfl, by rfl,
          by simp <;> omega⟩,
        fun hnofill htok => False.elim (by omega)⟩
    · refine ⟨fun hfill => False.elim (by omega),
        fun hnofill htok => False.elim (by omega),
        fun hnofill htok => ⟨_, rfl, by simp <;> omega, by simp <;> omega⟩⟩
  | some b0 =>
    have hlt := hob b0 rfl
    have hmaxpos := policy_max_batch_size_pos req.selected_model
      req.analysis_json
    have hsz : b0.requests.length = b0.size := rfl
    simp only [Option.elim]
    unfold addCore
    dsimp only
    by_cases hpre : 0 < b0.size ∧
        b0.total_effective_tokens +
            effective_tokens req.token_count req.analysis_json >
          (policy_for_model req.selected_model req.analysis_json
            defaultBatchCfg).max_batch_tokens
    · have hc : 0 < b0.size ∧
          (b0.size + 1 > (policy_for_model req.selected_model
              req.analysis_json defaultBatchCfg).max_batch_size ∨
            b0.total_effective_tokens +
                effective_tokens req.token_count req.analysis_json >
              (policy_for_model req.selected_model req.analysis_json
                defaultBatchCfg).max_batch_tokens) :=
        ⟨hpre.1, Or.inr hpre.2⟩
      rw [if_pos hc]
      have hnosz : ¬b0.size + 1 >
          (policy_for_model req.selected_model req.analysis_json
            defaultBatchCfg).max_batch_size := by omega
      rw [if_neg hnosz]
      simp only [Batch.size, new_batch, closeBatch, List.nil_append,
        List.length_singleton, List.length_append, zero_add]
      split_ifs with hA hB
      · refine ⟨fun _ b hb => ?_,
          fun habs => False.elim (by rcases habs with h | h <;> omega),
          fun _ => ⟨fun hone => ⟨rfl, _, List.getLast?_concat _, by rfl,
              by simp <;> omega⟩,
            fun hone htk => False.elim (by omega),
            fun hone htk => False.elim (by omega)⟩⟩
        simp only [Option.some_inj] at hb
        subst hb
        rfl
      · refine ⟨fun _ b hb => ?_,
          fun habs => False.elim (by rcases habs with h | h <;> omega),
          fun _ => ⟨fun hone => False.elim (by omega),
            fun hone htk => ⟨rfl, _, List.getLast?_concat _, by rfl⟩,
            fun hone htk => False.elim (by omega)⟩⟩
        simp only [Option.some_inj] at hb
        subst hb
        rfl
      · refine ⟨fun _ b hb => ?_,
          fun habs => False.elim (by rcases habs with h | h <;> omega),
          fun _ => ⟨fun hone => False.elim (by omega),
            fun hone htk => False.elim (by omega),
            fun hone htk => ⟨_, rfl, by simp <;> omega⟩⟩⟩
        simp only [Option.some_inj] at hb
        subst hb
        rfl
    · have hnopre : ¬(0 < b0.size ∧
          (b0.size + 1 > (policy_for_model req.selected_model
              req.analysis_json defaultBatchCfg).max_batch_size ∨
            b0.total_effective_tokens +
                effective_tokens req.token_count req.analysis_json >
              (policy_for_model req.selected_model req.analysis_json
                defaultBatchCfg).max_batch_tokens)) := by
        intro hcon
        rcases hcon.2 with h0 | h0
        · omega
        · exact hpre ⟨hcon.1, h0⟩
      rw [if_neg hnopre]
      simp only [Batch.size, closeBatch, List.nil_append,
        List.length_singleton, List.length_append, zero_add]
      split_ifs with hA hB
      · refine ⟨fun hcon => absurd hcon hpre,
          fun _ => ⟨fun hfill => ⟨rfl, _, by rfl, by rfl,
              by simp <;> omega⟩,
            fun hnofill htok => False.elim (by omega),
            fun hnofill htok => False.elim (by omega)⟩,
          fun hcon => absurd hcon hpre⟩
      · refine ⟨fun hcon => absurd hcon hpre,
          fun _ => ⟨fun hfill => False.elim (by omega),
            fun hnofill htok => ⟨rfl, _, by rfl, by rfl,
              by rfl⟩,
            fun hnofill htok => False.elim (by omega)⟩,
          fun hcon => absurd hcon hpre⟩
      · refine ⟨fun hcon => absurd hcon hpre,
          fun _ => ⟨fun hfill => False.elim (by omega),
            fun hnofill htok => False.elim (by omega),
            fun hnofill htok => ⟨_, rfl, by simp <;> omega, by rfl⟩⟩,
          fun hcon => absurd hcon hpre⟩

/-- C5 witness: a request joining a half-full open batch with room in both
caps leaves the batch open with one more request and its tokens added. -/
theorem add_close_reasons_witness :
    ∃ b', (addCore defaultBatchCfg sampleReq 5 (some sampleBatch) 2).2.1 =
        some b' ∧
      b'.requests.length = sampleBatch.size + 1 ∧
      b'.total_effective_tokens = sampleBatch.total_effective_tokens +
        effective_tokens sampleReq.token_count sampleReq.analysis_json :=
  ((add_close_reasons sampleReq 5 (some sampleBatch) 2
      (policy_for_model sampleReq.selected_model sampleReq.analysis_json
        defaultBatchCfg)
      (effective_tokens sampleReq.token_count sampleReq.analysis_json)
      sampleBatch.size sampleBatch.total_effective_tokens rfl rfl rfl rfl
      (fun b hb => by
        injection hb with h
        rw [← h]
        exact of_decide_eq_true (by with_unfolding_all rfl))).2.1
    (Or.inr (of_decide_eq_true (by with_unfolding_all rfl)))).2.2
    (of_decide_eq_true (by with_unfolding_all rfl))
    (of_decide_eq_true (by with_unfolding_all rfl))

/-- C8 counterexample: for the demanding analysis only two catalog models
meet the required strength 4.8, the code picks position `hash mod 2 = 1`
(claude-3-opus), while the claim's `hash mod N` with the default `N = 5`
designates position 3 among the top-N — a position that does not exist. -/
theorem router_mod_counterexample :
    select_model_from_catalog demandingAnalysis {} MODEL_CATALOG =
        some "claude-3-opus" ∧
    claimRouterModN demandingAnalysis {} MODEL_CATALOG = none := by
  constructor
  · with_unfolding_all rfl
  · with_unfolding_all rfl

/-- C8 (amended): whenever some catalog model meets the required strength,
the selector returns exactly the claim's rule with the tie-break position
taken modulo the number of retained top candidates: filter by the required
strength R (2.2/2.8/4.0 by complexity, +0.6 for compliance, +0.2 for low
latency at medium/high complexity), rank by the lexicographic key
`(cost_rank, latency_rank, −strength, −provider_boost)`, keep the top
`N = diversity_top_n` and pick position `hash(intent|complexity|latency|
compliance) mod min(N, #candidates)` — deterministically. -/
theorem router_rule_amended (a : AnalysisJson) (cfg : SelectionConfig)
    (cat : List ModelInfo) (hN : 1 ≤ cfg.diversity_top_n)
    (h : selectorCandidates a cfg cat ≠ []) :
    select_model_from_catalog a cfg cat = claimRouterModTop a cfg cat := by
  unfold select_model_from_catalog claimRouterModTop
  dsimp only
  rw [if_neg h, max_eq_right hN]
  by_cases hE : (((((selectorCandidates a cfg cat).map
      (fun m => (rank_key m (normalize_intent a.intent_type)
        a.complexity_level, m))).mergeSort rankedLe).take
        cfg.diversity_top_n).map (fun x => x.2)).isEmpty
  · rw [if_pos hE]
    rw [List.isEmpty_iff.mp hE]
    rfl
  · rw [if_neg hE]

/-- C8 witness: the amended rule applied at an analysis with many
candidates. -/
theorem router_rule_amended_witness :
    select_model_from_catalog easyAnalysis {} MODEL_CATALOG =
      claimRouterModTop easyAnalysis {} MODEL_CATALOG :=
  router_rule_amended easyAnalysis {} MODEL_CATALOG (by norm_num)
    (of_decide_eq_true (by with_unfolding_all rfl))

/-- C9: on any non-empty catalog and any analysis dictionary — missing or
unrecognized fields included — the selector totalises: it returns the name
of a catalog model (never raising), via the strongest-five fallback when no
model meets the required strength, with missing strength entries defaulting
through `general` to 0 inside `strengthOf`. -/
theorem selector_total (a : AnalysisJson) (cfg : SelectionConfig)
    (cat : List ModelInfo) (hcat : cat ≠ []) :
    ∃ m ∈ cat, select_model_from_catalog a cfg cat = some m.name := by
  unfold select_model_from_catalog
  dsimp only
  set intent := normalize_intent a.intent_type with hintent
  set cands := (if selectorCandidates a cfg cat = [] then
      (cat.mergeSort (strengthDescLe intent)).take 5
    else selectorCandidates a cfg cat) with hcands
  have hsub : ∀ m ∈ cands, m ∈ cat := by
    intro m hm
    rw [hcands] at hm
    split_ifs at hm with hsplit
    · have := List.take_subset 5 _ hm
      exact (List.mem_mergeSort).mp this
    · rw [selectorCandidates] at hm
      exact List.mem_of_mem_filter hm
  have hne : cands ≠ [] := by
    rw [hcands]
    split_ifs with hsplit
    · intro hcon
      have hlen := congrArg List.length hcon
      rw [List.length_take, List.length_mergeSort] at hlen
      simp only [List.length_nil] at hlen
      rcases Nat.min_eq_zero_iff.mp hlen with h5 | h0
      · omega
      · exact hcat (List.length_eq_zero.mp h0)
    · exact hsplit
  set ranked := ((cands.map (fun m =>
      (rank_key m intent a.complexity_level, m))).mergeSort rankedLe)
    with hranked
  have hrlen : ranked.length = cands.length := by
    rw [hranked, List.length_mergeSort, List.length_map]
  set top := ((ranked.take (max 1 cfg.diversity_top_n)).map (fun x => x.2))
    with htop
  have htoplen : 0 < top.length := by
    rw [htop, List.length_map, List.length_take]
    have h1 : 0 < cands.length := List.length_pos.mpr hne
    have h2 : 0 < max 1 cfg.diversity_top_n := by omega
    omega
  have htopsub : ∀ m ∈ top, m ∈ cands := by
    intro m hm
    rw [htop] at hm
    rcases List.mem_map.mp hm with ⟨pr, hpr, hpr2⟩
    have hpr3 : pr ∈ ranked := List.take_subset _ _ hpr
    rw [hranked] at hpr3
    have hpr4 := (List.mem_mergeSort).mp hpr3
    rcases List.mem_map.mp hpr4 with ⟨m0, hm0, hm02⟩
    rw [← hpr2, ← hm02]
    exact hm0
  have hempty : ¬top.isEmpty := by
    rw [List.isEmpty_iff]
    intro hcon
    rw [hcon] at htoplen
    simp at htoplen
  rw [if_neg hempty]
  have hidx : sumOrds (hashKeyString intent a.complexity_level
      a.latency_tolerance (a.compliance_needed.getD false)) % top.length <
      top.length := Nat.mod_lt _ htoplen
  refine ⟨top.get ⟨_, hidx⟩, hsub _ (htopsub _ (List.get_mem _ _ _)), ?_⟩
  rw [List.get?_eq_get hidx]
  rfl

/-- C9 witness: the selector applied to the bundled catalog and an analysis
with every field missing. -/
theorem selector_total_witness :
    ∃ m ∈ MODEL_CATALOG,
      select_model_from_catalog {} {} MODEL_CATALOG = some m.name :=
  selector_total {} {} MODEL_CATALOG (by
    unfold MODEL_CATALOG
    exact List.cons_ne_nil _ _)

end LLMOpt
